import Mathlib

/-!
Verification of the Ukkonen suffix-tree construction in `src/Ukkonen.py`.

The Python source is shallowly embedded: text symbols become natural-number
code points (Python `ord` values), Python strings become `List Nat`, the
mutable node graph becomes an arena (`List TrieNode`) addressed by integer
handles (the root is handle 0), and Python exceptions become an `err` field
threaded through the builder state.  Python sequence indexing (including
silent wrap-around of negative indices and `IndexError` outside `[-n, n)`)
is modelled by `pyIdx`.
-/

namespace Ukkonen

set_option maxRecDepth 1000000

/-- Python sequence index resolution for a sequence of length `len`:
indices in `[0, len)` are used directly, indices in `[-len, -1]` wrap to
`len + i`, anything else is an `IndexError`. -/
def pyIdx (len : Nat) (i : Int) : Option Nat :=
  if 0 ≤ i ∧ i < (len : Int) then some i.toNat
  else if -(len : Int) ≤ i ∧ i < 0 then some (i + len).toNat
  else none

/-- Python `xs[i]` on a list. -/
def pyGetList {α : Type} (xs : List α) (dflt : α) (i : Int) : Except String α :=
  match pyIdx xs.length i with
  | some k => .ok (xs.getD k dflt)
  | none => .error "IndexError"

/-- Python `xs[i] = v` on a list. -/
def pySetList {α : Type} (xs : List α) (i : Int) (v : α) : Except String (List α) :=
  match pyIdx xs.length i with
  | some k => .ok (xs.set k v)
  | none => .error "IndexError"

/-- `TrieNode` of the source (lines 15-37).  `children` always has the 91
slots `[None] * 91` of the source ("ASCII printable characters from 36 to
126"); entries are handles into the arena.  The source stores Python `None`
in `node_id` / `start_idx` / `end_idx` of the root; those fields of the root
are never read by the source, and the model stores `-1`, `0`, `0` there. -/
structure TrieNode where
  node_id : Int
  start_idx : Int
  end_idx : Int
  is_terminal : Bool
  children : List (Option Nat)
  suffix_link : Option Nat
deriving Repr, DecidableEq

instance : Inhabited TrieNode :=
  ⟨{ node_id := 0, start_idx := 0, end_idx := 0, is_terminal := false,
     children := List.replicate 91 none, suffix_link := none }⟩

/-- `TrieNode.get_child_at` (source lines 24-25). -/
def TrieNode.get_child_at (nd : TrieNode) (char_pos : Int) : Except String (Option Nat) :=
  pyGetList nd.children none char_pos

/-- `TrieNode.add_child` (source lines 27-28). -/
def TrieNode.add_child (nd : TrieNode) (char_pos : Int) (h : Nat) : Except String TrieNode :=
  match pySetList nd.children char_pos (some h) with
  | .ok cs => .ok { nd with children := cs }
  | .error e => .error e

/-- `TrieNode.end_index` (source lines 30-34).  For terminal nodes the
source evaluates `EndMarker().value`: the value of a *freshly constructed*
`EndMarker` (whose `__init__` sets `value = -1`), not the builder's shared
`global_end_marker`.  It is therefore always `-1` for terminal nodes. -/
def end_index (nd : TrieNode) : Int :=
  if nd.is_terminal then -1 else nd.end_idx

instance {ε α : Type} [DecidableEq ε] [DecidableEq α] : DecidableEq (Except ε α) := fun x y =>
  match x, y with
  | .error a, .error b => decidable_of_iff (a = b) (by simp)
  | .error _, .ok _ => isFalse (by simp)
  | .ok _, .error _ => isFalse (by simp)
  | .ok a, .ok b => decidable_of_iff (a = b) (by simp)

/-- The builder state of `UkkonenSuffixTree` (source lines 43-56).  The
source also sets `self.active_edge = None` in `__init__`; that attribute is
never read or written again and is omitted.  `global_end` is the `value` of
the builder's shared `EndMarker`.  `err` records a raised Python exception. -/
structure Builder where
  input_str : List Nat
  arena : List TrieNode
  active_length : Int
  active_node : Nat
  global_end : Int
  err : Option String
deriving Repr, DecidableEq

/-- Dereference a node handle. -/
def getNode (st : Builder) (h : Nat) : TrieNode :=
  st.arena.getD h default

/-- Overwrite the node stored at a handle (a Python object mutation). -/
def set_node (st : Builder) (h : Nat) (nd : TrieNode) : Builder :=
  { st with arena := st.arena.set h nd }

/-- Append a freshly constructed node to the arena; its handle is the old
arena length. -/
def push_node (st : Builder) (nd : TrieNode) : Builder :=
  { st with arena := st.arena ++ [nd] }

/-- `UkkonenSuffixTree.__init__` state setup (source lines 43-54): append
the terminator `"$"` (code point 36), create the root with `node_id = -1`
and `suffix_link` pointing to itself, start the end marker at `-1`. -/
def Builder.init (text : List Nat) : Builder :=
  { input_str := text ++ [36]
    arena := [{ node_id := -1, start_idx := 0, end_idx := 0, is_terminal := false,
                children := List.replicate 91 none, suffix_link := some 0 }]
    active_length := 0
    active_node := 0
    global_end := -1
    err := none }

/-- `UkkonenSuffixTree.traverse_path` (source lines 108-129), with a fuel
parameter bounding the recursion depth (Python's recursion limit).  Note
source line 115: `current_node = self.active_node` discards the node that
was passed in (unless it was terminal or the length was zero), so from
that point on the model reads `st.active_node` wherever the source reads
`current_node`. -/
def traverse_path (st : Builder) : Nat → Nat → Int → Except String Nat
  | 0, _, _ => .error "RecursionError"
  | fuel + 1, cur, length =>
    if (getNode st cur).is_terminal = true ∨ length = 0 then .ok cur
    else
      match pyGetList st.input_str 0 (st.global_end - length) with
      | .error e => .error e
      | .ok c =>
        match (getNode st st.active_node).get_child_at ((c : Int) - 36) with
        | .error e => .error e
        | .ok none => .ok st.active_node
        | .ok (some en) =>
          let edge_len := end_index (getNode st en) - (getNode st en).start_idx
          if edge_len > length then .ok st.active_node
          else traverse_path st fuel en (length - edge_len)

/-- Source lines 104-106 (the tail of each performed extension): move the
active node to its suffix link and increment the active length.  The `j$+$1`
increment of line 104 is performed by `ext_loop`.  If the suffix link is
Python `None` the next attribute access on `active_node` would raise; the
model raises immediately. -/
def advance_active (st : Builder) (li : Option Nat) : Builder × Option Nat × Bool :=
  match (getNode st st.active_node).suffix_link with
  | none => ({ st with err := some "AttributeError" }, li, false)
  | some sl => ({ st with active_node := sl, active_length := st.active_length + 1 }, li, true)

/-- Rule 2.2 (source lines 81-98): split the edge to `ae`, creating a new
internal node (which takes over the parent slot of `ae`), shift `ae`'s
start, re-attach `ae` under the new internal node, create a new leaf with
id `j`, and wire suffix links.  `c1` is `ord(input_str[i-1])`, already read
for the line-80 comparison; the source re-reads the same character on lines
84, 91 and 92.  Mutations of `ae` are performed on the arena after the slot
of `ae` was overwritten, exactly as the object mutations of the source. -/
def split_edge (st : Builder) (i : Nat) (j : Nat) (li : Option Nat)
    (char_pos : Int) (ae : Nat) (c1 : Nat) : Builder × Option Nat × Bool :=
  let hInt := st.arena.length
  let new_internal : TrieNode :=
    { node_id := (c1 : Int), start_idx := (getNode st ae).start_idx,
      end_idx := (getNode st ae).start_idx + st.active_length - 1, is_terminal := false,
      children := List.replicate 91 none, suffix_link := none }
  match (getNode st st.active_node).add_child char_pos hInt with
  | .error e => ({ st with err := some e }, li, false)
  | .ok parent2 =>
  let st1 := push_node (set_node st st.active_node parent2) new_internal
  let st2 := set_node st1 ae
    ({ getNode st1 ae with start_idx := (getNode st1 ae).start_idx + st1.active_length - 1 })
  match pyGetList st2.input_str 0 (getNode st2 ae).start_idx with
  | .error e => ({ st2 with err := some e }, li, false)
  | .ok c3 =>
  match (getNode st2 hInt).add_child ((c3 : Int) - 36) ae with
  | .error e => ({ st2 with err := some e }, li, false)
  | .ok intNode2 =>
  let st3 := set_node st2 hInt intNode2
  let hLeaf := st3.arena.length
  let new_leaf : TrieNode :=
    { node_id := (j : Int), start_idx := (i : Int) - 1, end_idx := st3.global_end,
      is_terminal := true, children := List.replicate 91 none, suffix_link := none }
  let st4 := push_node st3 new_leaf
  match (getNode st4 hInt).add_child ((c1 : Int) - 36) hLeaf with
  | .error e => ({ st4 with err := some e }, li, false)
  | .ok intNode3 =>
  let st5 := set_node st4 hInt intNode3
  let st6 := set_node st5 hInt ({ getNode st5 hInt with suffix_link := some 0 })
  let st7 :=
    match li with
    | none => st6
    | some l => set_node st6 l ({ getNode st6 l with suffix_link := some hInt })
  advance_active st7 (some hInt)

/-- One iteration of the `while j < i` body of `build_suffix_tree`
(source lines 66-106).  Returns the new state, the new
`last_internal_node`, and whether the loop continues (false on Rule 3's
`break` and on a raised exception; the `j$+$1` of line 104 is applied by
`ext_loop` whenever the returned flag is true). -/
def ext_once (st : Builder) (i : Nat) (j : Nat) (li : Option Nat) :
    Builder × Option Nat × Bool :=
  let st := if st.active_node = 0 then { st with active_length := (i : Int) - (j : Int) } else st
  match traverse_path st (st.active_length.toNat + 3) st.active_node st.active_length with
  | .error e => ({ st with err := some e }, li, false)
  | .ok _next_node =>
  match pyGetList st.input_str 0 ((i : Int) - st.active_length) with
  | .error e => ({ st with err := some e }, li, false)
  | .ok ch =>
  let char_pos : Int := (ch : Int) - 36
  match (getNode st st.active_node).get_child_at char_pos with
  | .error e => ({ st with err := some e }, li, false)
  | .ok none =>
    let new_leaf : TrieNode :=
      { node_id := (j : Int), start_idx := (i : Int) - st.active_length,
        end_idx := st.global_end, is_terminal := true,
        children := List.replicate 91 none, suffix_link := none }
    let hLeaf := st.arena.length
    match (getNode st st.active_node).add_child char_pos hLeaf with
    | .error e => ({ st with err := some e }, li, false)
    | .ok parent2 =>
      advance_active (push_node (set_node st st.active_node parent2) new_leaf) li
  | .ok (some ae) =>
    match pyGetList st.input_str 0 ((i : Int) - 1) with
    | .error e => ({ st with err := some e }, li, false)
    | .ok c1 =>
    match pyGetList st.input_str 0 ((getNode st ae).start_idx + st.active_length - 1) with
    | .error e => ({ st with err := some e }, li, false)
    | .ok c2 =>
    if c1 ≠ c2 then split_edge st i j li char_pos ae c1
    else (st, li, false)

/-- The `while j < i` loop of `build_suffix_tree` (source lines 65-106),
with an explicit iteration budget.  Each iteration either increments `j` or
leaves the loop, so the budget `i - j` supplied by `ext_loop` is exact. -/
def ext_loop_fuel : Nat → Builder → Nat → Nat → Option Nat → Builder × Nat
  | 0, st, _, j, _ => (st, j)
  | fuel + 1, st, i, j, li =>
    if j < i then
      let r := ext_once st i j li
      if r.2.2 then ext_loop_fuel fuel r.1 i (j + 1) r.2.1 else (r.1, j)
    else (st, j)

/-- The `while j < i` loop of `build_suffix_tree` (source lines 65-106). -/
def ext_loop (st : Builder) (i : Nat) (j : Nat) (li : Option Nat) : Builder × Nat :=
  ext_loop_fuel (i - j) st i j li

/-- One phase of `build_suffix_tree` (source lines 61-63): increment the
shared end marker (Rule 1), reset `last_internal_node`, run the extension
loop.  A previously raised exception stops everything. -/
def run_phase (st : Builder) (i : Nat) (j : Nat) : Builder × Nat :=
  if st.err.isSome then (st, j)
  else ext_loop { st with global_end := st.global_end + 1 } i j none

/-- The `for i in range(len(self.input_str) + 1)` loop (source line 61):
`count` phases starting at phase index `i`, threading `j` across phases. -/
def build_loop : Builder → Nat → Nat → Nat → Builder × Nat
  | st, j, _, 0 => (st, j)
  | st, j, i, n + 1 =>
    let r := run_phase st i j
    build_loop r.1 r.2 (i + 1) n

/-- `UkkonenSuffixTree.build_suffix_tree` (source lines 58-106), applied to
the state freshly created by `__init__`. -/
def build_suffix_tree (text : List Nat) : Builder :=
  let st := Builder.init text
  (build_loop st 0 0 (st.input_str.length + 1)).1

/-- `UkkonenSuffixTree.retrieve_suffix_ids` (source lines 132-143)
traversing a list of child slots: `None` slots are skipped, terminal nodes
contribute their `node_id`, other nodes are recursed into.  `fuel` bounds
the recursion depth (Python's recursion limit). -/
def retrieve_list (st : Builder) : Nat → List (Option Nat) → List Int
  | 0, _ => []
  | _ + 1, [] => []
  | fuel + 1, none :: rest => retrieve_list st fuel rest
  | fuel + 1, some h :: rest =>
    (if (getNode st h).is_terminal then [(getNode st h).node_id]
     else retrieve_list st fuel (getNode st h).children) ++
    retrieve_list st fuel rest

/-- `retrieve_suffix_ids` called on the root (source line 56).  The fuel
`(size + 1) * 92` dominates the number of recursive calls the source makes
on any arena of that size. -/
def retrieve_suffix_ids (st : Builder) : List Int :=
  if (getNode st 0).is_terminal then [(getNode st 0).node_id]
  else retrieve_list st ((st.arena.length + 1) * 92) (getNode st 0).children

/-- The whole `UkkonenSuffixTree(input_str)` constructor: built state plus
collected `suffix_ids`. -/
def suffix_ids (text : List Nat) : List Int :=
  retrieve_suffix_ids (build_suffix_tree text)

/-- Assignment `d[k] = v` on the model of a Python dict (an association
list in insertion order, as CPython dicts preserve insertion order). -/
def dict_set (d : List (Int × Nat)) (k : Int) (v : Nat) : List (Int × Nat) :=
  if d.any (fun kv => kv.1 = k) then d.map (fun kv => if kv.1 = k then (k, v) else kv)
  else d ++ [(k, v)]

/-- Lookup `d[k]`; `none` is Python's `KeyError`. -/
def dict_get (d : List (Int × Nat)) (k : Int) : Option Nat :=
  (d.find? (fun kv => kv.1 = k)).map (fun kv => kv.2)

/-- `main`'s rank dictionary (source lines 171-173):
`suffix_dict[suffix_ids[i]] = i + 1`. -/
def suffix_dict (ids : List Int) : List (Int × Nat) :=
  (List.range ids.length).foldl (fun d i => dict_set d (ids.getD i 0) (i + 1)) []

/-- Insert an entry into a key-sorted association list. -/
def insert_by_key (kv : Int × Nat) : List (Int × Nat) → List (Int × Nat)
  | [] => [kv]
  | x :: xs => if kv.1 ≤ x.1 then kv :: x :: xs else x :: insert_by_key kv xs

/-- `main`'s `sorted_dict` (source line 176): entries re-sorted by key
(dict keys are distinct, so the sorted sequence is unique and any sorting
algorithm models Python's `sorted`). -/
def sorted_dict (ids : List Int) : List (Int × Nat) :=
  (suffix_dict ids).foldr insert_by_key []

/-- One rank query of `main` (source line 182): `sorted_dict[num - 1]`,
`none` when Python raises `KeyError`. -/
def query_rank (text : List Nat) (num : Int) : Option Nat :=
  dict_get (sorted_dict (suffix_ids text)) (num - 1)

/-- `main`'s query loop (source lines 179-184): ranks for the queried
positions, aborting with `KeyError` on a missing key. -/
def main_ranks (text : List Nat) (positions : List Int) : Except String (List Nat) :=
  positions.foldl
    (fun acc num =>
      match acc with
      | .error e => .error e
      | .ok rs =>
        match query_rank text num with
        | none => .error "KeyError"
        | some r => .ok (rs ++ [r]))
    (.ok [])

/-! ### Specification-level definitions -/

/-- Strict lexicographic order on code-point sequences, as Python's `<` on
strings. -/
def lexLt : List Nat → List Nat → Bool
  | [], [] => false
  | [], _ :: _ => true
  | _ :: _, [] => false
  | a :: as, b :: bs => if a < b then true else if b < a then false else lexLt as bs

/-- Valid text for the supported alphabet: every symbol is an ASCII code in
`[36, 126]` (the child-table range of the source). -/
def ValidText (s : List Nat) : Prop :=
  ∀ c ∈ s, 36 ≤ c ∧ c ≤ 126

instance (s : List Nat) : Decidable (ValidText s) := by
  unfold ValidText; infer_instance

/-- The property claimed of the Suffix Collector (spec §8, claim C1): the
output is a permutation of `{0..n}` and lists suffix starts in strictly
ascending lexicographic order of the suffixes of `text ++ "$"`. -/
def SuffixIdsCorrect (text : List Nat) : Prop :=
  let s := text ++ [36]
  (suffix_ids text).Perm ((List.range (text.length + 1)).map Int.ofNat) ∧
  (suffix_ids text).Pairwise (fun p q => lexLt (s.drop p.toNat) (s.drop q.toNat) = true)

instance (text : List Nat) : Decidable (SuffixIdsCorrect text) := by
  unfold SuffixIdsCorrect; infer_instance

/-- Modelled from the spec (§4.3): `effectiveEnd(node)` is the Oracle's
current value for leaves and the stored `end` for internal/closed nodes. -/
def effective_end (st : Builder) (nd : TrieNode) : Int :=
  if nd.is_terminal then st.global_end else nd.end_idx

/-- Modelled from the spec (§4.4(b) and claim C3): the skip/count walk.
Starting from the node actually passed in, follow a whole edge while its
length (`effectiveEnd - start + 1`) is less than the remaining
`active_length`, decrementing the remaining length by each consumed edge's
length.  The next symbol is selected by the same text position the source
uses (`global_end - remaining`), so that the only deviations from
`traverse_path` are the ones claim C3 is about. -/
def walk_down_spec (st : Builder) : Nat → Nat → Int → Option Nat
  | 0, cur, _ => some cur
  | fuel + 1, cur, remaining =>
    if remaining ≤ 0 then some cur
    else
      match pyGetList st.input_str 0 (st.global_end - remaining) with
      | .error _ => none
      | .ok c =>
        match (getNode st cur).get_child_at ((c : Int) - 36) with
        | .error _ => none
        | .ok none => some cur
        | .ok (some e) =>
          let el := effective_end st (getNode st e) - (getNode st e).start_idx + 1
          if el < remaining then walk_down_spec st fuel e (remaining - el) else some cur

/-! ### Concrete inputs and states used by the claims -/

/-- Code points of `"banana"`. -/
def banana : List Nat := [98, 97, 110, 97, 110, 97]

/-- Code points of `"aabab"`, a shortest text on which the collector output
is not sorted. -/
def aabab : List Nat := [97, 97, 98, 97, 98]

/-- Code points of `"mississippi"` (the text of the source's own expected
output comment, line 167). -/
def mississippi : List Nat := [109, 105, 115, 115, 105, 115, 115, 105, 112, 112, 105]

/-- The reachable builder state on which phase 4 of the `"banana"` build
calls `traverse_path` for extension `j = 3`: the first four phases have
run, the end marker has been advanced for phase 4 (source line 62) and the
active length has been reset to `i - j = 1` (source line 67). -/
def bananaMid : Builder :=
  let r := build_loop (Builder.init banana) 0 0 4
  { r.1 with global_end := r.1.global_end + 1, active_length := 1 }

/-- A well-formed suffix-tree builder state over text `"abc$"` used to
exercise `traverse_path` on a node other than the active node: root (0)
has children `'a' ↦ 1` and `'b' ↦ 3`; node 1 is internal with edge `[0,0]`
and leaf child `'b' ↦ 2`; node 3 is internal with edge `[1,3]` and leaf
child `'c' ↦ 4`.  The active node is the root and two symbols remain. -/
def travSt : Builder :=
  { input_str := [97, 98, 99, 36]
    arena :=
      [ { node_id := -1, start_idx := 0, end_idx := 0, is_terminal := false,
          children := ((List.replicate 91 none).set 61 (some 1)).set 62 (some 3),
          suffix_link := some 0 }
      , { node_id := 0, start_idx := 0, end_idx := 0, is_terminal := false,
          children := (List.replicate 91 none).set 62 (some 2), suffix_link := some 0 }
      , { node_id := 0, start_idx := 1, end_idx := 3, is_terminal := true,
          children := List.replicate 91 none, suffix_link := none }
      , { node_id := 1, start_idx := 1, end_idx := 3, is_terminal := false,
          children := (List.replicate 91 none).set 63 (some 4), suffix_link := some 0 }
      , { node_id := 1, start_idx := 2, end_idx := 3, is_terminal := true,
          children := List.replicate 91 none, suffix_link := none } ]
    active_length := 2
    active_node := 0
    global_end := 3
    err := none }

/-! ### Construction invariants

The predicates below are stated over the embedded builder state and are
proved to hold at initialisation and to be preserved by every extension of
the construction (for texts over the supported symbol range).  All
quantifiers are bounded so the predicates remain decidable. -/

/-- The slot a child handle must occupy: reading the text at the child's
`start_idx` (with Python index semantics) succeeds, and the child-table
index of the symbol found there resolves to `k`. -/
def slot_matches (s : List Nat) (start : Int) (k : Nat) : Prop :=
  match pyGetList s 0 start with
  | .error _ => False
  | .ok c => pyIdx 91 ((c : Int) - 36) = some k

instance (s : List Nat) (start : Int) (k : Nat) : Decidable (slot_matches s start k) := by
  unfold slot_matches
  split <;> infer_instance

/-- What must hold of the occupant of child slot `k` of any node: the
handle is not the root, is a live arena handle, and its edge's first
symbol resolves to `k`. -/
def child_slot_ok (st : Builder) (k : Nat) : Option Nat → Prop
  | none => True
  | some h =>
      h ≠ 0 ∧ h < st.arena.length ∧ slot_matches st.input_str (getNode st h).start_idx k

instance (st : Builder) (k : Nat) (o : Option Nat) : Decidable (child_slot_ok st k o) := by
  unfold child_slot_ok
  split <;> infer_instance

/-- What must hold of the occupant of child slot `k` of the root while `j`
extensions have completed: its edge starts at a text position in `[0, j)`,
and if it is internal its stored edge is nonempty
(`start + 1 ≤ end`). -/
def root_child_ok (st : Builder) (j : Nat) : Option Nat → Prop
  | none => True
  | some h =>
      (0 ≤ (getNode st h).start_idx ∧ (getNode st h).start_idx < (j : Int)) ∧
      ((getNode st h).is_terminal = false →
        (getNode st h).start_idx + 1 ≤ (getNode st h).end_idx)

instance (st : Builder) (j : Nat) (o : Option Nat) : Decidable (root_child_ok st j o) := by
  unfold root_child_ok
  split <;> infer_instance

/-- Slot distinctness at two child-table positions `(p1, k1)`, `(p2, k2)`:
if the first holds a handle and both hold the same handle, the positions
coincide (so no handle has two parents or occupies two slots). -/
def distinct_slots (st : Builder) (p1 p2 k1 k2 : Nat) : Prop :=
  (getNode st p1).children.getD k1 none ≠ none →
  (getNode st p1).children.getD k1 none = (getNode st p2).children.getD k2 none →
  p1 = p2 ∧ k1 = k2

instance (st : Builder) (p1 p2 k1 k2 : Nat) : Decidable (distinct_slots st p1 p2 k1 k2) := by
  unfold distinct_slots
  infer_instance

/-- Arena shape invariant: the root exists, is internal, and its suffix
link is itself; every child table has 91 slots; every stored child handle
is live, is not the root, and sits in the slot its edge's first symbol
resolves to; terminal ids are suffix start positions; no handle is stored
in two different child slots. -/
@[mk_iff]
structure ArenaInv (st : Builder) : Prop where
  ne : st.arena ≠ []
  root_not_terminal : (getNode st 0).is_terminal = false
  root_link : (getNode st 0).suffix_link = some 0
  clen : ∀ nd ∈ st.arena, nd.children.length = 91
  child_ok : ∀ nd ∈ st.arena, ∀ k < 91, child_slot_ok st k (nd.children.getD k none)
  term_id : ∀ nd ∈ st.arena, nd.is_terminal = true →
      0 ≤ nd.node_id ∧ nd.node_id < (st.input_str.length : Int)
  unique_parent : ∀ p1 < st.arena.length, ∀ p2 < st.arena.length, ∀ k1 < 91, ∀ k2 < 91,
      distinct_slots st p1 p2 k1 k2

instance (st : Builder) : Decidable (ArenaInv st) :=
  decidable_of_iff _ (arenaInv_iff st).symm

/-- Full construction invariant after `j` completed extensions: the arena
invariant, no pending exception, the active node is the root, and the
conditions on the root's children. -/
@[mk_iff]
structure BuildInv (st : Builder) (j : Nat) extends ArenaInv st : Prop where
  err_none : st.err = none
  active_root : st.active_node = 0
  root_child : ∀ k < 91, root_child_ok st j ((getNode st 0).children.getD k none)

instance (st : Builder) (j : Nat) : Decidable (BuildInv st j) :=
  decidable_of_iff _ (buildInv_iff st j).symm

/-- Valid symbols: every code point of the stored text (terminator
included) is in the supported range `[36, 126]`. -/
def TextOk (st : Builder) : Prop :=
  ∀ c ∈ st.input_str, 36 ≤ c ∧ c ≤ 126

instance (st : Builder) : Decidable (TextOk st) := by
  unfold TextOk
  infer_instance

/-- Constraint on the `last_internal_node` register: when set, it names a
live non-root handle. -/
def LiOk (st : Builder) : Option Nat → Prop
  | none => True
  | some l => l ≠ 0 ∧ l < st.arena.length

instance (st : Builder) (o : Option Nat) : Decidable (LiOk st o) := by
  unfold LiOk
  split <;> infer_instance

/-- Child-table soundness, the publicly stated part of claim C7: the root
exists and is not a leaf, and every stored child occupies exactly the slot
its edge's first symbol encodes to. -/
def ChildTableOk (st : Builder) : Prop :=
  st.arena ≠ [] ∧ (getNode st 0).is_terminal = false ∧
  ∀ nd ∈ st.arena, ∀ k < 91, child_slot_ok st k (nd.children.getD k none)

instance (st : Builder) : Decidable (ChildTableOk st) := by
  unfold ChildTableOk
  infer_instance

/-! ### Helper lemmas: list access and Python index semantics -/

theorem getD_set_self {α : Type} (l : List α) (i : Nat) (v d : α) (h : i < l.length) :
    (l.set i v).getD i d = v := by
  simp [List.getD, List.getElem?_set_self, h]

theorem getD_set_ne {α : Type} (l : List α) (i j : Nat) (v d : α) (h : i ≠ j) :
    (l.set i v).getD j d = l.getD j d := by
  simp [List.getD, List.getElem?_set_ne, h]

theorem getD_append_left {α : Type} (l1 l2 : List α) (i : Nat) (d : α) (h : i < l1.length) :
    (l1 ++ l2).getD i d = l1.getD i d := by
  simp [List.getD, List.getElem?_append_left, h]

theorem getD_append_right {α : Type} (l1 l2 : List α) (i : Nat) (d : α)
    (h : l1.length ≤ i) :
    (l1 ++ l2).getD i d = l2.getD (i - l1.length) d := by
  simp [List.getD, List.getElem?_append_right, h]

theorem getD_of_len_le {α : Type} (l : List α) (i : Nat) (d : α) (h : l.length ≤ i) :
    l.getD i d = d := by
  simp [List.getD, List.getElem?_eq_none, h]

theorem lt_of_getD_ne {α : Type} (l : List α) (i : Nat) (d : α) (h : l.getD i d ≠ d) :
    i < l.length := by
  by_contra hc
  push_neg at hc
  simp [List.getD, List.getElem?_eq_none, hc] at h

theorem getD_mem {α : Type} (l : List α) (i : Nat) (d : α) (h : i < l.length) :
    l.getD i d ∈ l := by
  simp [List.getD, List.getElem?_eq_getElem, h]

theorem getD_replicate_none {α : Type} (n i : Nat) :
    (List.replicate n (none : Option α)).getD i none = none := by
  rcases Nat.lt_or_ge i n with h | h
  · have := getD_mem (List.replicate n (none : Option α)) i none (by simpa using h)
    exact List.eq_of_mem_replicate this
  · exact getD_of_len_le _ _ _ (by simpa using h)

theorem pyIdx_in_range (len : Nat) (i : Int) (h0 : 0 ≤ i) (h1 : i < (len : Int)) :
    pyIdx len i = some i.toNat := by
  unfold pyIdx
  rw [if_pos ⟨h0, h1⟩]

theorem pyIdx_lt (len : Nat) (i : Int) (k : Nat) (h : pyIdx len i = some k) : k < len := by
  unfold pyIdx at h
  split at h
  · rename_i hc
    cases h
    omega
  · split at h
    · rename_i hc
      cases h
      omega
    · cases h

theorem pyIdx_valid (c : Nat) (h36 : 36 ≤ c) (h126 : c ≤ 126) :
    pyIdx 91 ((c : Int) - 36) = some (c - 36) := by
  unfold pyIdx
  split
  · congr 1
    omega
  · rename_i hc
    exact absurd (by omega : 0 ≤ (c : Int) - 36 ∧ (c : Int) - 36 < ((91 : Nat) : Int)) hc

theorem pyGetList_ok {α : Type} (xs : List α) (d : α) (i : Int)
    (h0 : 0 ≤ i) (h1 : i < (xs.length : Int)) :
    pyGetList xs d i = .ok (xs.getD i.toNat d) := by
  unfold pyGetList
  rw [pyIdx_in_range xs.length i h0 h1]

theorem pyGetList_ok_mem {α : Type} (xs : List α) (d : α) (i : Int) (c : α)
    (h : pyGetList xs d i = .ok c) : c ∈ xs := by
  unfold pyGetList at h
  cases hk : pyIdx xs.length i with
  | none => rw [hk] at h; cases h
  | some k =>
    rw [hk] at h
    cases h
    exact getD_mem _ _ _ (pyIdx_lt _ _ _ hk)

theorem textOk_read (st : Builder) (hT : TextOk st) (i : Int) (c : Nat)
    (h : pyGetList st.input_str 0 i = .ok c) : 36 ≤ c ∧ c ≤ 126 :=
  hT c (pyGetList_ok_mem _ _ _ _ h)

theorem get_child_at_valid (nd : TrieNode) (hlen : nd.children.length = 91)
    (c : Nat) (h36 : 36 ≤ c) (h126 : c ≤ 126) :
    nd.get_child_at ((c : Int) - 36) = .ok (nd.children.getD (c - 36) none) := by
  unfold TrieNode.get_child_at pyGetList
  rw [hlen, pyIdx_valid c h36 h126]

theorem add_child_valid (nd : TrieNode) (hlen : nd.children.length = 91)
    (c : Nat) (h36 : 36 ≤ c) (h126 : c ≤ 126) (h : Nat) :
    nd.add_child ((c : Int) - 36) h =
      .ok { nd with children := nd.children.set (c - 36) (some h) } := by
  unfold TrieNode.add_child pySetList
  rw [hlen, pyIdx_valid c h36 h126]

/-! ### Helper lemmas: arena access after updates -/

theorem getNode_arena (st : Builder) (a : List TrieNode) (h : Nat) :
    getNode { st with arena := a } h = a.getD h default := rfl

theorem getNode_set (st : Builder) (l : Nat) (v : TrieNode) (h : Nat) :
    getNode { st with arena := st.arena.set l v } h =
      if h = l ∧ l < st.arena.length then v else getNode st h := by
  by_cases hc : h = l ∧ l < st.arena.length
  · rw [if_pos hc]
    obtain ⟨rfl, hlt⟩ := hc
    exact getD_set_self _ _ _ _ hlt
  · rw [if_neg hc]
    by_cases he : h = l
    · subst he
      have hge : st.arena.length ≤ h := by
        by_contra hx
        exact hc ⟨rfl, by omega⟩
      show (st.arena.set h v).getD h default = st.arena.getD h default
      rw [getD_of_len_le _ _ _ (by simpa using hge), getD_of_len_le _ _ _ hge]
    · exact getD_set_ne _ _ _ _ _ (fun e => he e.symm)

theorem getNode_append (st : Builder) (v : TrieNode) (h : Nat) :
    getNode { st with arena := st.arena ++ [v] } h =
      if h < st.arena.length then getNode st h
      else if h = st.arena.length then v else default := by
  by_cases h1 : h < st.arena.length
  · rw [if_pos h1]
    exact getD_append_left _ _ _ _ h1
  · rw [if_neg h1]
    by_cases h2 : h = st.arena.length
    · rw [if_pos h2]
      subst h2
      show (st.arena ++ [v]).getD st.arena.length default = v
      rw [getD_append_right _ _ _ _ (le_refl _), Nat.sub_self]
      rfl
    · rw [if_neg h2]
      show (st.arena ++ [v]).getD h default = default
      exact getD_of_len_le _ _ _ (by simp; omega)

theorem getNode_default (st : Builder) (h : Nat) (hge : st.arena.length ≤ h) :
    getNode st h = default :=
  getD_of_len_le _ _ _ hge

theorem getNode_mem (st : Builder) (h : Nat) (hlt : h < st.arena.length) :
    getNode st h ∈ st.arena :=
  getD_mem _ _ _ hlt

theorem root_mem (st : Builder) (hne : st.arena ≠ []) : getNode st 0 ∈ st.arena :=
  getNode_mem st 0 (List.length_pos.mpr hne)

/-! ### Helper lemmas: invariant transfer between equal-shaped states -/

theorem getD_eq_getElem {α : Type} (l : List α) (i : Nat) (d : α) (h : i < l.length) :
    l.getD i d = l[i] := by
  simp [List.getD, List.getElem?_eq_getElem, h]

/-- Transfer of the full invariant between two states whose observable
node components agree everywhere (only suffix links, the active length or
the end marker may differ, except the root's suffix link). -/
theorem buildInv_same_shape (st st' : Builder) {j : Nat}
    (hi : st'.input_str = st.input_str) (he : st'.err = st.err)
    (hn : st'.active_node = st.active_node)
    (hlen : st'.arena.length = st.arena.length)
    (hroot_link : (getNode st' 0).suffix_link = (getNode st 0).suffix_link)
    (hcomp : ∀ h : Nat, (getNode st' h).node_id = (getNode st h).node_id ∧
        (getNode st' h).start_idx = (getNode st h).start_idx ∧
        (getNode st' h).end_idx = (getNode st h).end_idx ∧
        (getNode st' h).is_terminal = (getNode st h).is_terminal ∧
        (getNode st' h).children = (getNode st h).children)
    (h : BuildInv st j) : BuildInv st' j := by
  obtain ⟨⟨ne, rnt, rl, clen, cok, tid, up⟩, err, act, rc⟩ := h
  have hmem : ∀ nd ∈ st'.arena, ∃ p : Nat, p < st.arena.length ∧ nd = getNode st' p := by
    intro nd hnd
    obtain ⟨p, hp, hpe⟩ := List.mem_iff_getElem.mp hnd
    exact ⟨p, by omega, by rw [← hpe]; exact (getD_eq_getElem _ _ _ hp).symm⟩
  have hlen0 : 0 < st.arena.length := List.length_pos.mpr ne
  have hslot : ∀ k o, child_slot_ok st k o → child_slot_ok st' k o := by
    intro k o hsk
    cases o with
    | none => trivial
    | some x =>
      obtain ⟨h1, h2, h3⟩ := hsk
      exact ⟨h1, by omega, by rw [hi, (hcomp x).2.1]; exact h3⟩
  constructor
  case err_none => rw [he]; exact err
  case active_root => rw [hn]; exact act
  case root_child =>
    intro k hk
    rw [(hcomp 0).2.2.2.2]
    have := rc k hk
    cases ho : (getNode st 0).children.getD k none with
    | none => trivial
    | some x =>
      rw [ho] at this
      obtain ⟨ha, hb⟩ := this
      exact ⟨by rw [(hcomp x).2.1]; exact ha,
        by rw [(hcomp x).2.2.2.1, (hcomp x).2.1, (hcomp x).2.2.1]; exact hb⟩
  case toArenaInv =>
    constructor
    · intro hnil
      rw [hnil] at hlen
      simp at hlen
      omega
    · rw [(hcomp 0).2.2.2.1]; exact rnt
    · rw [hroot_link]; exact rl
    · intro nd hnd
      obtain ⟨p, hp, rfl⟩ := hmem nd hnd
      rw [(hcomp p).2.2.2.2]
      exact clen _ (getNode_mem st p hp)
    · intro nd hnd k hk
      obtain ⟨p, hp, rfl⟩ := hmem nd hnd
      rw [(hcomp p).2.2.2.2]
      exact hslot _ _ (cok _ (getNode_mem st p hp) k hk)
    · intro nd hnd hterm
      obtain ⟨p, hp, rfl⟩ := hmem nd hnd
      rw [(hcomp p).1, hi]
      rw [(hcomp p).2.2.2.1] at hterm
      exact tid _ (getNode_mem st p hp) hterm
    · intro p1 hp1 p2 hp2 k1 hk1 k2 hk2
      unfold distinct_slots
      rw [(hcomp p1).2.2.2.2, (hcomp p2).2.2.2.2]
      exact up p1 (by omega) p2 (by omega) k1 hk1 k2 hk2

/-- Changing only `active_length` or `global_end` (or nothing) preserves
the invariant. -/
theorem buildInv_congr {st st' : Builder} {j : Nat} (ha : st'.arena = st.arena)
    (hi : st'.input_str = st.input_str) (he : st'.err = st.err)
    (hn : st'.active_node = st.active_node) (h : BuildInv st j) : BuildInv st' j := by
  have hg : ∀ x : Nat, getNode st' x = getNode st x := by
    intro x
    unfold getNode
    rw [ha]
  exact buildInv_same_shape st st' hi he hn (by rw [ha]) (by rw [hg])
    (fun x => by rw [hg]; exact ⟨rfl, rfl, rfl, rfl, rfl⟩) h

/-- Setting the suffix link of a non-root node preserves the invariant. -/
theorem buildInv_set_link (st : Builder) (j : Nat) (l : Nat) (sl : Option Nat)
    (hInv : BuildInv st j) (hl : l ≠ 0) :
    BuildInv { st with arena := st.arena.set l ({ getNode st l with suffix_link := sl }) } j := by
  have hset := getNode_set st l ({ getNode st l with suffix_link := sl })
  refine buildInv_same_shape st _ rfl rfl rfl (by simp) ?_ ?_ hInv
  · rw [hset 0, if_neg (by intro hc; exact hl hc.1.symm)]
  · intro x
    rw [hset x]
    by_cases hc : x = l ∧ l < st.arena.length
    · rw [if_pos hc]
      obtain ⟨rfl, _⟩ := hc
      exact ⟨rfl, rfl, rfl, rfl, rfl⟩
    · rw [if_neg hc]
      exact ⟨rfl, rfl, rfl, rfl, rfl⟩

/-- The invariant is monotone in the number of completed extensions. -/
theorem buildInv_mono {st : Builder} {j j' : Nat} (hj : j ≤ j') (h : BuildInv st j) :
    BuildInv st j' := by
  obtain ⟨arena, err, act, rc⟩ := h
  refine ⟨arena, err, act, ?_⟩
  intro k hk
  have := rc k hk
  cases ho : (getNode st 0).children.getD k none with
  | none => trivial
  | some x =>
    rw [ho] at this
    exact ⟨⟨this.1.1, by have := this.1.2; omega⟩, this.2⟩

theorem getNode_set_lt (st : Builder) (l : Nat) (v : TrieNode) (hl : l < st.arena.length)
    (h : Nat) :
    getNode { st with arena := st.arena.set l v } h = if h = l then v else getNode st h := by
  rw [getNode_set]
  by_cases hc : h = l
  · rw [if_pos ⟨hc, hl⟩, if_pos hc]
  · rw [if_neg (fun x => hc x.1), if_neg hc]

theorem getNode_set_append (st : Builder) (p : Nat) (v w : TrieNode)
    (hp : p < st.arena.length) (h : Nat) :
    getNode { st with arena := (st.arena.set p v) ++ [w] } h =
      if h = p then v else if h = st.arena.length then w else getNode st h := by
  show ((st.arena.set p v) ++ [w]).getD h default = _
  by_cases h1 : h = p
  · subst h1
    rw [if_pos rfl, getD_append_left _ _ _ _ (by simpa using hp), getD_set_self _ _ _ _ hp]
  · rw [if_neg h1]
    by_cases h2 : h = st.arena.length
    · subst h2
      rw [if_pos rfl, getD_append_right _ _ _ _ (by simp)]
      simp
    · rw [if_neg h2]
      by_cases h3 : h < st.arena.length
      · rw [getD_append_left _ _ _ _ (by simpa using h3),
          getD_set_ne _ _ _ _ _ (fun e => h1 e.symm)]
        rfl
      · show _ = getNode st h
        rw [getNode_default st h (by omega), getD_of_len_le _ _ _ (by simp; omega)]

theorem getD_set_table (cs : List (Option Nat)) (k k' : Nat) (v : Option Nat)
    (hk : k < cs.length) :
    (cs.set k v).getD k' none = if k' = k then v else cs.getD k' none := by
  by_cases hc : k' = k
  · subst hc
    rw [if_pos rfl, getD_set_self _ _ _ _ hk]
  · rw [if_neg hc, getD_set_ne _ _ _ _ _ (fun e => hc e.symm)]

@[simp] theorem set_node_input (st : Builder) (l : Nat) (v : TrieNode) :
    (set_node st l v).input_str = st.input_str := rfl

@[simp] theorem set_node_err (st : Builder) (l : Nat) (v : TrieNode) :
    (set_node st l v).err = st.err := rfl

@[simp] theorem set_node_active (st : Builder) (l : Nat) (v : TrieNode) :
    (set_node st l v).active_node = st.active_node := rfl

@[simp] theorem set_node_alen (st : Builder) (l : Nat) (v : TrieNode) :
    (set_node st l v).active_length = st.active_length := rfl

@[simp] theorem set_node_gend (st : Builder) (l : Nat) (v : TrieNode) :
    (set_node st l v).global_end = st.global_end := rfl

@[simp] theorem set_node_len (st : Builder) (l : Nat) (v : TrieNode) :
    (set_node st l v).arena.length = st.arena.length := by
  simp [set_node]

@[simp] theorem push_node_input (st : Builder) (v : TrieNode) :
    (push_node st v).input_str = st.input_str := rfl

@[simp] theorem push_node_err (st : Builder) (v : TrieNode) :
    (push_node st v).err = st.err := rfl

@[simp] theorem push_node_active (st : Builder) (v : TrieNode) :
    (push_node st v).active_node = st.active_node := rfl

@[simp] theorem push_node_alen (st : Builder) (v : TrieNode) :
    (push_node st v).active_length = st.active_length := rfl

@[simp] theorem push_node_gend (st : Builder) (v : TrieNode) :
    (push_node st v).global_end = st.global_end := rfl

@[simp] theorem push_node_len (st : Builder) (v : TrieNode) :
    (push_node st v).arena.length = st.arena.length + 1 := by
  simp [push_node]

theorem getNode_set_node (st : Builder) (l : Nat) (v : TrieNode) (h : Nat) :
    getNode (set_node st l v) h = if h = l ∧ l < st.arena.length then v else getNode st h :=
  getNode_set st l v h

theorem getNode_set_node_lt (st : Builder) (l : Nat) (v : TrieNode)
    (hl : l < st.arena.length) (h : Nat) :
    getNode (set_node st l v) h = if h = l then v else getNode st h :=
  getNode_set_lt st l v hl h

theorem getNode_push_node (st : Builder) (v : TrieNode) (h : Nat) :
    getNode (push_node st v) h =
      if h < st.arena.length then getNode st h
      else if h = st.arena.length then v else default := by
  show (st.arena ++ [v]).getD h default = _
  exact getNode_append st v h

/-! ### Helper lemmas: the skip/count walk cannot raise -/

theorem traverse_ok (st : Builder) {j : Nat} (hInv : BuildInv st j) (hT : TextOk st)
    (i : Nat) (hge : st.global_end = (i : Int)) (hi : i ≤ st.input_str.length) :
    ∀ fuel : Nat, ∀ length : Int, ∀ cur : Nat, 0 ≤ length → length ≤ (i : Int) →
      length.toNat + 2 ≤ fuel → ∃ r, traverse_path st fuel cur length = Except.ok r := by
  intro fuel
  induction fuel using Nat.strong_induction_on with
  | _ fuel IH =>
  intro length cur h0 hlen hfuel
  obtain ⟨fuel, rfl⟩ : ∃ f, fuel = f + 1 := ⟨fuel - 1, by omega⟩
  by_cases hterm : (getNode st cur).is_terminal = true ∨ length = 0
  · exact ⟨cur, by rw [traverse_path, if_pos hterm]⟩
  · have hl1 : 1 ≤ length := by
      rcases not_or.mp hterm with ⟨_, hz⟩
      omega
    have hidx0 : 0 ≤ st.global_end - length := by omega
    have hidx1 : st.global_end - length < (st.input_str.length : Int) := by omega
    have hread := pyGetList_ok st.input_str 0 (st.global_end - length) hidx0 hidx1
    have hcmem : st.input_str.getD (st.global_end - length).toNat 0 ∈ st.input_str :=
      getD_mem _ _ _ (by omega)
    obtain ⟨hc36, hc126⟩ := hT _ hcmem
    have hclen : (getNode st 0).children.length = 91 :=
      hInv.clen _ (root_mem st hInv.ne)
    have hchild := get_child_at_valid (getNode st 0) hclen _ hc36 hc126
    cases hslot : (getNode st 0).children.getD
        (st.input_str.getD (st.global_end - length).toNat 0 - 36) none with
    | none =>
      refine ⟨0, ?_⟩
      rw [traverse_path, if_neg hterm]
      simp only [hread, hInv.active_root, hchild, hslot]
    | some en =>
      have hco := hInv.child_ok (getNode st 0) (root_mem st hInv.ne)
        (st.input_str.getD (st.global_end - length).toNat 0 - 36) (by omega)
      rw [hslot] at hco
      obtain ⟨hen0, henlt, _⟩ := hco
      have hrc := hInv.root_child
        (st.input_str.getD (st.global_end - length).toNat 0 - 36) (by omega)
      rw [hslot] at hrc
      obtain ⟨⟨hstart0, _⟩, hintlen⟩ := hrc
      by_cases hent : (getNode st en).is_terminal = true
      · have hel : ¬ (end_index (getNode st en) - (getNode st en).start_idx > length) := by
          unfold end_index
          rw [if_pos hent]
          omega
        obtain ⟨fuel, rfl⟩ : ∃ f, fuel = f + 1 := ⟨fuel - 1, by omega⟩
        refine ⟨en, ?_⟩
        rw [traverse_path, if_neg hterm]
        simp only [hread, hInv.active_root, hchild, hslot]
        rw [if_neg hel]
        rw [traverse_path, if_pos (Or.inl hent)]
      · have hintl := hintlen (by simpa using hent)
        have hel1 : 1 ≤ end_index (getNode st en) - (getNode st en).start_idx := by
          unfold end_index
          rw [if_neg hent]
          omega
        by_cases hbig : end_index (getNode st en) - (getNode st en).start_idx > length
        · refine ⟨0, ?_⟩
          rw [traverse_path, if_neg hterm]
          simp only [hread, hInv.active_root, hchild, hslot]
          rw [if_pos hbig]
        · obtain ⟨r, hr⟩ := IH fuel (by omega)
            (length - (end_index (getNode st en) - (getNode st en).start_idx)) en
            (by omega) (by omega) (by omega)
          refine ⟨r, ?_⟩
          rw [traverse_path, if_neg hterm]
          simp only [hread, hInv.active_root, hchild, hslot]
          rw [if_neg hbig]
          exact hr

/-! ### Helper lemmas: invariant preservation by an edge split -/

theorem mem_arena_getNode (st : Builder) (nd : TrieNode) (h : nd ∈ st.arena) :
    ∃ p : Nat, p < st.arena.length ∧ nd = getNode st p := by
  obtain ⟨p, hp, hpe⟩ := List.mem_iff_getElem.mp h
  exact ⟨p, hp, by rw [← hpe]; exact (getD_eq_getElem _ _ _ hp).symm⟩

theorem split_core_inv (st : Builder) (j i : Nat) (ae : Nat) (cq c1 c3 : Nat)
    (PP NN0 AEE NN2 LLF NN3 : TrieNode)
    (hInv : BuildInv st j) (hT : TextOk st)
    (hji2 : j + 2 ≤ i) (hi : i ≤ st.input_str.length)
    (hge : st.global_end = (i : Int)) (halen : st.active_length = (i : Int) - (j : Int))
    (hcq36 : 36 ≤ cq) (hcq126 : cq ≤ 126)
    (hae : (getNode st 0).children.getD (cq - 36) none = some ae)
    (hc1 : pyGetList st.input_str 0 ((i : Int) - 1) = Except.ok c1)
    (hc3 : pyGetList st.input_str 0 ((getNode st ae).start_idx + st.active_length - 1) =
      Except.ok c3)
    (hPP : PP = { getNode st 0 with children := (getNode st 0).children.set (cq - 36) (some st.arena.length) })
    (hNN0 : NN0 = { node_id := (c1 : Int), start_idx := (getNode st ae).start_idx, end_idx := (getNode st ae).start_idx + st.active_length - 1, is_terminal := false, children := List.replicate 91 none, suffix_link := none })
    (hAEE : AEE = { getNode st ae with start_idx := (getNode st ae).start_idx + st.active_length - 1 })
    (hNN2 : NN2 = { NN0 with children := NN0.children.set (c3 - 36) (some ae) })
    (hLLF : LLF = { node_id := (j : Int), start_idx := (i : Int) - 1, end_idx := st.global_end, is_terminal := true, children := List.replicate 91 none, suffix_link := none })
    (hNN3 : NN3 = { NN2 with children := NN2.children.set (c1 - 36) (some (st.arena.length + 1)) }) :
    BuildInv (set_node (push_node (set_node (set_node (push_node (set_node st 0 PP) NN0) ae
      AEE) st.arena.length NN2) LLF) st.arena.length NN3) (j + 1) := by
  have hL0 : 0 < st.arena.length := List.length_pos.mpr hInv.ne
  have hclen0 : (getNode st 0).children.length = 91 := hInv.clen _ (root_mem st hInv.ne)
  have hkc : cq - 36 < 91 := by omega
  have hco := hInv.child_ok _ (root_mem st hInv.ne) (cq - 36) hkc
  rw [hae] at hco
  obtain ⟨hae0, haeL, haesm⟩ := hco
  have hrcq := hInv.root_child (cq - 36) hkc
  rw [hae] at hrcq
  obtain ⟨⟨hs0, hsj⟩, hint⟩ := hrcq
  obtain ⟨hc1a, hc1b⟩ := textOk_read st hT _ _ hc1
  obtain ⟨hc3a, hc3b⟩ := textOk_read st hT _ _ hc3
  have haemem : getNode st ae ∈ st.arena := getNode_mem st ae haeL
  have haecl : (getNode st ae).children.length = 91 := hInv.clen _ haemem
  have hae_unique : ∀ p k, p < st.arena.length → k < 91 →
      (getNode st p).children.getD k none = some ae → p = 0 ∧ k = cq - 36 := by
    intro p k hp hk hv
    have hup := hInv.unique_parent p hp 0 hL0 k hk (cq - 36) hkc
    unfold distinct_slots at hup
    exact hup (by rw [hv]; simp) (by rw [hv, hae])
  -- component facts
  have hPPch : ∀ k, PP.children.getD k none =
      if k = cq - 36 then some st.arena.length else (getNode st 0).children.getD k none := by
    intro k
    rw [hPP]
    exact getD_set_table _ _ _ _ (by rw [hclen0]; omega)
  have hPPt : PP.is_terminal = false := by rw [hPP]; exact hInv.root_not_terminal
  have hPPl : PP.suffix_link = some 0 := by rw [hPP]; exact hInv.root_link
  have hPPcl : PP.children.length = 91 := by rw [hPP]; simpa using hclen0
  have hAEEch : AEE.children = (getNode st ae).children := by rw [hAEE]
  have hAEEs : AEE.start_idx = (getNode st ae).start_idx + st.active_length - 1 := by rw [hAEE]
  have hAEEt : AEE.is_terminal = (getNode st ae).is_terminal := by rw [hAEE]
  have hAEEid : AEE.node_id = (getNode st ae).node_id := by rw [hAEE]
  have hN3ch : ∀ k, NN3.children.getD k none =
      if k = c1 - 36 then some (st.arena.length + 1)
      else if k = c3 - 36 then some ae else none := by
    intro k
    rw [hNN3, hNN2, hNN0]
    show ((((List.replicate 91 none).set (c3 - 36) (some ae)).set (c1 - 36)
      (some (st.arena.length + 1)))).getD k none = _
    rw [getD_set_table _ _ _ _ (by simp only [List.length_set, List.length_replicate]; omega)]
    by_cases hk1 : k = c1 - 36
    · rw [if_pos hk1, if_pos hk1]
    · rw [if_neg hk1, if_neg hk1,
        getD_set_table _ _ _ _ (by simp only [List.length_replicate]; omega)]
      by_cases hk3 : k = c3 - 36
      · rw [if_pos hk3, if_pos hk3]
      · rw [if_neg hk3, if_neg hk3, getD_replicate_none]
  have hN3t : NN3.is_terminal = false := by rw [hNN3, hNN2, hNN0]
  have hN3s : NN3.start_idx = (getNode st ae).start_idx := by rw [hNN3, hNN2, hNN0]
  have hN3e : NN3.end_idx = (getNode st ae).start_idx + st.active_length - 1 := by
    rw [hNN3, hNN2, hNN0]
  have hN3cl : NN3.children.length = 91 := by rw [hNN3, hNN2, hNN0]; simp
  have hLLFch : ∀ k, LLF.children.getD k none = none := by
    intro k
    rw [hLLF]
    exact getD_replicate_none _ _
  have hLLFt : LLF.is_terminal = true := by rw [hLLF]
  have hLLFid : LLF.node_id = (j : Int) := by rw [hLLF]
  have hLLFs : LLF.start_idx = (i : Int) - 1 := by rw [hLLF]
  have hLLFcl : LLF.children.length = 91 := by rw [hLLF]; simp
  -- node characterization of the final state
  have hnode : ∀ h : Nat,
      getNode (set_node (push_node (set_node (set_node (push_node (set_node st 0 PP) NN0) ae
        AEE) st.arena.length NN2) LLF) st.arena.length NN3) h =
      if h = 0 then PP else if h = ae then AEE else if h = st.arena.length then NN3
      else if h = st.arena.length + 1 then LLF else getNode st h := by
    intro h
    split_ifs with hh0 hhae hhL hhL1
    · subst hh0
      rw [getNode_set_node_lt _ _ _ (by simp only [set_node_len, push_node_len]; omega) 0, if_neg (by omega), getNode_push_node]
      simp only [set_node_len, push_node_len]
      rw [if_pos (by omega), getNode_set_node_lt _ _ _ (by simp only [set_node_len, push_node_len]; omega) 0, if_neg (by omega),
        getNode_set_node_lt _ _ _ (by simp only [set_node_len, push_node_len]; omega) 0, if_neg (by omega), getNode_push_node]
      simp only [set_node_len]
      rw [if_pos (by omega), getNode_set_node_lt _ _ _ hL0 0, if_pos rfl]
    · rw [getNode_set_node_lt _ _ _ (by simp only [set_node_len, push_node_len]; omega) h, if_neg (by omega), getNode_push_node]
      simp only [set_node_len, push_node_len]
      rw [if_pos (by omega), getNode_set_node_lt _ _ _ (by simp only [set_node_len, push_node_len]; omega) h, if_neg (by omega),
        getNode_set_node_lt _ _ _ (by simp only [set_node_len, push_node_len]; omega) h, if_pos hhae]
    · subst hhL
      rw [getNode_set_node_lt _ _ _ (by simp only [set_node_len, push_node_len]; omega) st.arena.length, if_pos rfl]
    · subst hhL1
      rw [getNode_set_node_lt _ _ _ (by simp only [set_node_len, push_node_len]; omega) (st.arena.length + 1), if_neg (by omega),
        getNode_push_node]
      simp only [set_node_len, push_node_len]
      rw [if_neg (show ¬ (st.arena.length + 1 < st.arena.length + 1) by omega)]
      exact if_pos trivial
    · by_cases hlt : h < st.arena.length
      · rw [getNode_set_node_lt _ _ _ (by simp only [set_node_len, push_node_len]; omega) h, if_neg (by omega), getNode_push_node]
        simp only [set_node_len, push_node_len]
        rw [if_pos (by omega), getNode_set_node_lt _ _ _ (by simp only [set_node_len, push_node_len]; omega) h, if_neg (by omega),
          getNode_set_node_lt _ _ _ (by simp only [set_node_len, push_node_len]; omega) h, if_neg (by omega), getNode_push_node]
        simp only [set_node_len]
        rw [if_pos (by omega), getNode_set_node_lt _ _ _ hL0 h, if_neg (by omega)]
      · rw [getNode_set_node_lt _ _ _ (by simp only [set_node_len, push_node_len]; omega) h, if_neg (by omega), getNode_push_node]
        simp only [set_node_len, push_node_len]
        rw [if_neg (by omega), if_neg (by omega), getNode_default st h (by omega)]
  have hSlen : (set_node (push_node (set_node (set_node (push_node (set_node st 0 PP) NN0) ae
      AEE) st.arena.length NN2) LLF) st.arena.length NN3).arena.length =
      st.arena.length + 2 := by
    simp
  -- occupancy characterization
  have hocc : ∀ p k h', p < st.arena.length + 2 → k < 91 →
      (getNode (set_node (push_node (set_node (set_node (push_node (set_node st 0 PP) NN0) ae
        AEE) st.arena.length NN2) LLF) st.arena.length NN3) p).children.getD k none =
        some h' →
      (p = 0 ∧ k = cq - 36 ∧ h' = st.arena.length) ∨
      (p = st.arena.length ∧ k = c1 - 36 ∧ h' = st.arena.length + 1) ∨
      (p = st.arena.length ∧ k = c3 - 36 ∧ h' = ae) ∨
      (p < st.arena.length ∧ ¬(p = 0 ∧ k = cq - 36) ∧
        (getNode st p).children.getD k none = some h' ∧ h' ≠ 0 ∧ h' < st.arena.length) := by
    intro p k h' hp hk hv
    rw [hnode p] at hv
    split_ifs at hv with hp0 hpae hpL hpL1
    · subst hp0
      rw [hPPch k] at hv
      by_cases hkq : k = cq - 36
      · rw [if_pos hkq] at hv
        exact Or.inl ⟨rfl, hkq, (Option.some_inj.mp hv).symm⟩
      · rw [if_neg hkq] at hv
        have old := hInv.child_ok _ (root_mem st hInv.ne) k hk
        rw [hv] at old
        exact Or.inr (Or.inr (Or.inr ⟨hL0, fun e => hkq e.2, hv, old.1, old.2.1⟩))
    · rw [hAEEch] at hv
      have old := hInv.child_ok _ haemem k hk
      rw [hv] at old
      refine Or.inr (Or.inr (Or.inr ⟨by omega, fun e => hae0 (by omega), ?_, old.1, old.2.1⟩))
      rw [hpae]
      exact hv
    · subst hpL
      rw [hN3ch k] at hv
      by_cases hk1 : k = c1 - 36
      · rw [if_pos hk1] at hv
        exact Or.inr (Or.inl ⟨rfl, hk1, (Option.some_inj.mp hv).symm⟩)
      · rw [if_neg hk1] at hv
        by_cases hk3 : k = c3 - 36
        · rw [if_pos hk3] at hv
          exact Or.inr (Or.inr (Or.inl ⟨rfl, hk3, (Option.some_inj.mp hv).symm⟩))
        · rw [if_neg hk3] at hv
          cases hv
    · rw [hLLFch k] at hv
      cases hv
    · have hpltL : p < st.arena.length := by omega
      have old := hInv.child_ok _ (getNode_mem st p hpltL) k hk
      rw [hv] at old
      exact Or.inr (Or.inr (Or.inr ⟨hpltL, fun e => hp0 e.1, hv, old.1, old.2.1⟩))
  refine ⟨⟨?_, ?_, ?_, ?_, ?_, ?_, ?_⟩, hInv.err_none, hInv.active_root, ?_⟩
  · -- ne
    intro hnil
    rw [hnil] at hSlen
    simp at hSlen
  · -- root not terminal
    rw [hnode 0, if_pos rfl]
    exact hPPt
  · -- root link
    rw [hnode 0, if_pos rfl]
    exact hPPl
  · -- children lengths
    intro nd hnd
    obtain ⟨p, hp, rfl⟩ := mem_arena_getNode _ _ hnd
    rw [hSlen] at hp
    rw [hnode p]
    split_ifs with hp0 hpae hpL hpL1
    · exact hPPcl
    · rw [hAEEch]
      exact haecl
    · exact hN3cl
    · exact hLLFcl
    · exact hInv.clen _ (getNode_mem st p (by omega))
  · -- child slots
    intro nd hnd k hk
    obtain ⟨p, hp, rfl⟩ := mem_arena_getNode _ _ hnd
    rw [hSlen] at hp
    rcases hv : (getNode (set_node (push_node (set_node (set_node (push_node (set_node st 0 PP)
        NN0) ae AEE) st.arena.length NN2) LLF) st.arena.length NN3) p).children.getD k
        none with _ | h'
    · trivial
    · rcases hocc p k h' hp hk hv with ⟨e1, e2, e3⟩ | ⟨e1, e2, e3⟩ | ⟨e1, e2, e3⟩ |
        ⟨e1, e2, e3, e4, e5⟩
      · subst e3
        refine ⟨by omega, by rw [hSlen]; omega, ?_⟩
        rw [hnode st.arena.length, if_neg (by omega), if_neg (by omega), if_pos rfl, hN3s, e2]
        exact haesm
      · subst e3
        refine ⟨by omega, by rw [hSlen]; omega, ?_⟩
        rw [hnode (st.arena.length + 1), if_neg (by omega), if_neg (by omega),
          if_neg (by omega), if_pos rfl, hLLFs, e2]
        show slot_matches st.input_str ((i : Int) - 1) (c1 - 36)
        unfold slot_matches
        rw [hc1]
        exact pyIdx_valid c1 hc1a hc1b
      · refine ⟨by omega, by rw [hSlen]; omega, ?_⟩
        rw [hnode h', if_neg (by omega), if_pos e3, hAEEs, e2]
        show slot_matches st.input_str ((getNode st ae).start_idx + st.active_length - 1)
          (c3 - 36)
        unfold slot_matches
        rw [hc3]
        exact pyIdx_valid c3 hc3a hc3b
      · have hne_ae : h' ≠ ae := by
          intro e
          rw [e] at e3
          exact e2 (hae_unique p k e1 hk e3)
        have old := hInv.child_ok _ (getNode_mem st p e1) k hk
        rw [e3] at old
        refine ⟨e4, by rw [hSlen]; omega, ?_⟩
        rw [hnode h', if_neg e4, if_neg hne_ae, if_neg (by omega), if_neg (by omega)]
        exact old.2.2
  · -- terminal ids
    intro nd hnd ht
    obtain ⟨p, hp, rfl⟩ := mem_arena_getNode _ _ hnd
    rw [hSlen] at hp
    rw [hnode p] at ht ⊢
    split_ifs at ht ⊢ with hp0 hpae hpL hpL1
    · rw [hPPt] at ht
      cases ht
    · rw [hAEEt] at ht
      rw [hAEEid]
      have := hInv.term_id _ haemem ht
      exact ⟨this.1, by have := this.2; simpa using this⟩
    · rw [hN3t] at ht
      cases ht
    · rw [hLLFid]
      constructor
      · omega
      · show (j : Int) < ((set_node (push_node (set_node (set_node (push_node (set_node st 0 PP)
          NN0) ae AEE) st.arena.length NN2) LLF) st.arena.length NN3).input_str.length : Int)
        show (j : Int) < (st.input_str.length : Int)
        omega
    · have := hInv.term_id _ (getNode_mem st p (by omega)) ht
      exact ⟨this.1, by have := this.2; simpa using this⟩
  · -- unique parent
    intro p1 hp1 p2 hp2 k1 hk1 k2 hk2
    unfold distinct_slots
    intro hne hequal
    rw [hSlen] at hp1 hp2
    rcases hv1 : (getNode (set_node (push_node (set_node (set_node (push_node (set_node st 0 PP)
        NN0) ae AEE) st.arena.length NN2) LLF) st.arena.length NN3) p1).children.getD k1
        none with _ | h'
    · exact absurd hv1 hne
    · have hv2 : (getNode (set_node (push_node (set_node (set_node (push_node (set_node st 0 PP)
          NN0) ae AEE) st.arena.length NN2) LLF) st.arena.length NN3) p2).children.getD k2
          none = some h' := by
        rw [← hequal, hv1]
      rcases hocc p1 k1 h' hp1 hk1 hv1 with ⟨e1, e2, e3⟩ | ⟨e1, e2, e3⟩ | ⟨e1, e2, e3⟩ |
          ⟨e1, e2, e3, e4, e5⟩ <;>
        rcases hocc p2 k2 h' hp2 hk2 hv2 with ⟨f1, f2, f3⟩ | ⟨f1, f2, f3⟩ | ⟨f1, f2, f3⟩ |
          ⟨f1, f2, f3, f4, f5⟩
      · exact ⟨by omega, by omega⟩
      · omega
      · omega
      · omega
      · omega
      · exact ⟨by omega, by omega⟩
      · omega
      · omega
      · omega
      · omega
      · exact ⟨by omega, by omega⟩
      · -- h' = ae found in an old table
        rw [e3] at f3
        exact absurd (hae_unique p2 k2 f1 hk2 f3) f2
      · omega
      · omega
      · rw [f3] at e3
        exact absurd (hae_unique p1 k1 e1 hk1 e3) e2
      · have := hInv.unique_parent p1 e1 p2 f1 k1 hk1 k2 hk2
        unfold distinct_slots at this
        exact this (by rw [e3]; simp) (by rw [e3, f3])
  · -- root children after j + 1 extensions
    intro k hk
    rw [hnode 0, if_pos rfl, hPPch k]
    by_cases hkq : k = cq - 36
    · rw [if_pos hkq]
      refine ⟨⟨?_, ?_⟩, ?_⟩
      · rw [hnode st.arena.length, if_neg (by omega), if_neg (by omega), if_pos rfl, hN3s]
        exact hs0
      · rw [hnode st.arena.length, if_neg (by omega), if_neg (by omega), if_pos rfl, hN3s]
        omega
      · intro _
        rw [hnode st.arena.length, if_neg (by omega), if_neg (by omega), if_pos rfl, hN3s, hN3e]
        omega
    · rw [if_neg hkq]
      rcases hov : (getNode st 0).children.getD k none with _ | h'
      · trivial
      · have old := hInv.root_child k hk
        rw [hov] at old
        have hchd := hInv.child_ok _ (root_mem st hInv.ne) k hk
        rw [hov] at hchd
        obtain ⟨o1, o2, _⟩ := hchd
        have hne_ae : h' ≠ ae := by
          intro e
          rw [e] at hov
          exact hkq (hae_unique 0 k hL0 hk hov).2
        refine ⟨⟨?_, ?_⟩, ?_⟩
        · rw [hnode h', if_neg o1, if_neg hne_ae, if_neg (by omega), if_neg (by omega)]
          exact old.1.1
        · rw [hnode h', if_neg o1, if_neg hne_ae, if_neg (by omega), if_neg (by omega)]
          have := old.1.2
          omega
        · intro hterm
          rw [hnode h', if_neg o1, if_neg hne_ae, if_neg (by omega), if_neg (by omega)] at hterm ⊢
          exact old.2 hterm

/-! ### Claim theorems: concrete evaluations -/

/-- C1: the Suffix Collector's output is NOT always a sorted permutation of
the suffix starts.  For text `"aabab"` the build completes without error
but outputs `[5, 0, 1, 3, 4, 2]`, which lists suffix 1 (`"abab$"`) before
suffix 3 (`"ab$"`) although `"ab$" < "abab$"` lexicographically; and for
`"mississippi"` the output differs from the source's own expected suffix
array recorded in its line-167 comment. -/
theorem c1_collector_unsorted_on_aabab :
    (build_suffix_tree aabab).err = none ∧
    suffix_ids aabab = [5, 0, 1, 3, 4, 2] ∧
    lexLt ((aabab ++ [36]).drop 3) ((aabab ++ [36]).drop 1) = true ∧
    ¬ SuffixIdsCorrect aabab ∧
    suffix_ids mississippi ≠ [11, 10, 7, 4, 1, 0, 9, 8, 6, 3, 5, 2] := by
  decide

/-- C2: `end_index` of a terminal node evaluates a freshly constructed
`EndMarker` and is therefore always `-1`; it does not read the builder's
shared end marker.  Concretely, after building `"a"` the leaf created in
phase 1 reports `end_index = -1` while the shared marker holds 2. -/
theorem c2_end_index_is_fresh_marker :
    (∀ nd : TrieNode, nd.is_terminal = true → end_index nd = -1) ∧
    ((getNode (build_suffix_tree [97]) 1).is_terminal = true ∧
     end_index (getNode (build_suffix_tree [97]) 1) = -1 ∧
     (build_suffix_tree [97]).global_end = 2) := by
  constructor
  · intro nd h
    simp [end_index, h]
  · decide

/-- C2 witness: the universally quantified half of
`c2_end_index_is_fresh_marker` applied to the concrete leaf of the `"a"`
build, whose hypothesis is discharged by evaluation. -/
theorem c2_end_index_is_fresh_marker_witness :
    end_index (getNode (build_suffix_tree [97]) 1) = -1 :=
  c2_end_index_is_fresh_marker.1 (getNode (build_suffix_tree [97]) 1) (by decide)

/-- C3 counterexample: `traverse_path` does not perform the specified
skip/count walk.  On the reachable state `bananaMid` (phase 4, extension
`j = 3` of the `"banana"` build) it descends into the terminal leaf 2,
while the specified walk stays at the root because the leaf's edge length
`effectiveEnd - start + 1 = 4` is not less than the remaining length 1;
and on `travSt` it returns node 3, which is not a descendant of the node 1
it was asked to walk down from (the specified walk returns node 1). -/
theorem c3_traverse_not_skip_count :
    traverse_path bananaMid 4 0 1 = .ok 2 ∧
    (getNode bananaMid 2).is_terminal = true ∧
    walk_down_spec bananaMid 4 0 1 = some 0 ∧
    traverse_path travSt 5 1 2 = .ok 3 ∧
    walk_down_spec travSt 5 1 2 = some 1 := by
  decide

/-- C3 amended: unless the node passed to it is terminal or the length is
zero, `traverse_path` discards that node (source line 115) and re-enters
the walk from the builder's current active node, so its result does not
depend on the node passed in; it follows an edge whenever the edge's
length, computed as `end_index - start` (which is `-1 - start` for
leaves), does not exceed the remaining length. -/
theorem c3_traverse_ignores_passed_node (st : Builder) (fuel : Nat)
    (cur1 cur2 : Nat) (length : Int)
    (h1 : (getNode st cur1).is_terminal = false)
    (h2 : (getNode st cur2).is_terminal = false)
    (hl : length ≠ 0) :
    traverse_path st (fuel + 1) cur1 length = traverse_path st (fuel + 1) cur2 length := by
  simp only [traverse_path, h1, hl, h2, Bool.false_eq_true, or_self, if_false]

/-- C3 amended witness: on `travSt`, walking from node 1 and from the root
give the same answer, since the passed node is discarded. -/
theorem c3_traverse_ignores_passed_node_witness :
    traverse_path travSt 5 1 2 = traverse_path travSt 5 0 2 :=
  c3_traverse_ignores_passed_node travSt 4 1 0 2 (by decide) (by decide) (by decide)

/-- C4 counterexample: a text containing the control character `"\x01"`
does not raise any error: construction completes, creates three nodes, and
the control character was silently mapped (by Python's negative-index
wrap-around of `ord("\x01") - 36 = -35`) to child-table slot 56 of the
root, where its leaf sits. -/
theorem c4_control_char_no_error :
    pyIdx 91 ((1 : Int) - 36) = some 56 ∧
    (build_suffix_tree [1]).err = none ∧
    (build_suffix_tree [1]).arena.length = 3 ∧
    (getNode (build_suffix_tree [1]) 0).children.getD 56 none = some 1 ∧
    (getNode (build_suffix_tree [1]) 1).is_terminal = true := by
  decide

/-- C4 amended: there is no `UnsupportedSymbol` check.  Every symbol with
code point below 36 resolves, via Python's silent negative-index
wrap-around, to child-table slot `code + 55`, and construction proceeds
without error; a symbol with code point above 126 instead raises a plain
`IndexError` at child-table access time (not at encode time, and only when
that symbol's extension is first processed). -/
theorem c4_encode_wraps_negative :
    (∀ c : Nat, c < 36 → pyIdx 91 ((c : Int) - 36) = some (c + 55)) ∧
    (build_suffix_tree [1]).err = none ∧
    (build_suffix_tree [200]).err = some "IndexError" := by
  refine ⟨?_, by decide, by decide⟩
  intro c hc
  unfold pyIdx
  split
  · omega
  · split
    · congr 1
      omega
    · omega

/-- C4 amended witness: the wrap-around half applied to the control
character `"\x01"`. -/
theorem c4_encode_wraps_negative_witness :
    pyIdx 91 ((1 : Int) - 36) = some 56 :=
  c4_encode_wraps_negative.1 1 (by decide)

/-- C5: for text `"banana"` the collector outputs `[6, 5, 3, 1, 0, 4, 2]`
and the rank mapping of `main` assigns the suffix starting at position 0
(`"banana$"`) rank 5 and the suffix starting at position 5 (`"a$"`)
rank 2 (queried through `main`'s 1-based convention as positions 1
and 6). -/
theorem c5_banana_ranks :
    suffix_ids banana = [6, 5, 3, 1, 0, 4, 2] ∧
    dict_get (sorted_dict (suffix_ids banana)) 0 = some 5 ∧
    dict_get (sorted_dict (suffix_ids banana)) 5 = some 2 ∧
    query_rank banana 1 = some 5 ∧
    query_rank banana 6 = some 2 := by
  decide

/-- C6 counterexample: the end marker does not always equal the index of
the last processed symbol.  Building the empty text (whose `input_str` is
`"$"`, last index 0) leaves the marker at 1: the phase loop runs
`len(input_str) + 1` times, so the marker overshoots the text. -/
theorem c6_marker_exceeds_last_index :
    (build_suffix_tree []).global_end = 1 ∧
    ((build_suffix_tree []).input_str.length : Int) - 1 = 0 ∧
    (build_suffix_tree []).global_end ≠
      ((build_suffix_tree []).input_str.length : Int) - 1 := by
  decide

theorem split_edge_ok (st : Builder) (i j : Nat) (li : Option Nat) (ae : Nat) (cq c1 : Nat)
    (hInv : BuildInv st j) (hT : TextOk st)
    (hji2 : j + 2 ≤ i) (hi : i ≤ st.input_str.length)
    (hge : st.global_end = (i : Int)) (halen : st.active_length = (i : Int) - (j : Int))
    (hli : LiOk st li)
    (hcq36 : 36 ≤ cq) (hcq126 : cq ≤ 126)
    (hae : (getNode st 0).children.getD (cq - 36) none = some ae)
    (hc1 : pyGetList st.input_str 0 ((i : Int) - 1) = Except.ok c1) :
    BuildInv (split_edge st i j li ((cq : Int) - 36) ae c1).1 (j + 1) ∧
    LiOk (split_edge st i j li ((cq : Int) - 36) ae c1).1
      (split_edge st i j li ((cq : Int) - 36) ae c1).2.1 ∧
    (split_edge st i j li ((cq : Int) - 36) ae c1).2.2 = true ∧
    (split_edge st i j li ((cq : Int) - 36) ae c1).1.input_str = st.input_str ∧
    (split_edge st i j li ((cq : Int) - 36) ae c1).1.global_end = st.global_end ∧
    st.arena.length ≤ (split_edge st i j li ((cq : Int) - 36) ae c1).1.arena.length := by
  have hL0 : 0 < st.arena.length := List.length_pos.mpr hInv.ne
  have hclen0 : (getNode st 0).children.length = 91 := hInv.clen _ (root_mem st hInv.ne)
  have hkc : cq - 36 < 91 := by omega
  have hco := hInv.child_ok _ (root_mem st hInv.ne) (cq - 36) hkc
  rw [hae] at hco
  obtain ⟨hae0, haeL, haesm⟩ := hco
  have hrcq := hInv.root_child (cq - 36) hkc
  rw [hae] at hrcq
  obtain ⟨⟨hs0, hsj⟩, hint⟩ := hrcq
  obtain ⟨hc1a, hc1b⟩ := textOk_read st hT _ _ hc1
  obtain ⟨c3v, hc3, hc3a, hc3b⟩ :
      ∃ c, pyGetList st.input_str 0 ((getNode st ae).start_idx + st.active_length - 1) =
        Except.ok c ∧ 36 ≤ c ∧ c ≤ 126 := by
    have h0' : 0 ≤ (getNode st ae).start_idx + st.active_length - 1 := by omega
    have h1' : (getNode st ae).start_idx + st.active_length - 1 <
        (st.input_str.length : Int) := by omega
    refine ⟨_, pyGetList_ok st.input_str 0 _ h0' h1', ?_⟩
    exact hT _ (getD_mem _ _ _ (by omega))
  have hadd1 := add_child_valid (getNode st 0) hclen0 cq hcq36 hcq126 st.arena.length
  have g2 : ∀ X Y : TrieNode, getNode (push_node (set_node st 0 X) Y) ae = getNode st ae := by
    intro X Y
    rw [getNode_push_node]
    simp only [set_node_len]
    rw [if_pos haeL, getNode_set_node_lt _ _ _ hL0 ae, if_neg hae0]
  have gae2 : ∀ X Y Z : TrieNode,
      getNode (set_node (push_node (set_node st 0 X) Y) ae Z) ae = Z := by
    intro X Y Z
    rw [getNode_set_node_lt _ _ _ (by simp only [set_node_len, push_node_len]; omega) ae,
      if_pos rfl]
  have gL2 : ∀ X Y Z : TrieNode,
      getNode (set_node (push_node (set_node st 0 X) Y) ae Z) st.arena.length = Y := by
    intro X Y Z
    rw [getNode_set_node_lt _ _ _ (by simp only [set_node_len, push_node_len]; omega)
      st.arena.length, if_neg (by omega), getNode_push_node]
    simp only [set_node_len]
    rw [if_neg (by omega)]
    exact if_pos trivial
  have gL4 : ∀ X Y Z W V : TrieNode,
      getNode (push_node (set_node (set_node (push_node (set_node st 0 X) Y) ae Z)
        st.arena.length W) V) st.arena.length = W := by
    intro X Y Z W V
    rw [getNode_push_node]
    simp only [set_node_len, push_node_len]
    rw [if_pos (by omega),
      getNode_set_node_lt _ _ _ (by simp only [set_node_len, push_node_len]; omega)
        st.arena.length, if_pos rfl]
  have g0a : ∀ X Y Z W V U1 U2 : TrieNode,
      getNode (set_node (set_node (push_node (set_node (set_node (push_node (set_node st 0 X)
        Y) ae Z) st.arena.length W) V) st.arena.length U1) st.arena.length U2) 0 = X := by
    intro X Y Z W V U1 U2
    rw [getNode_set_node_lt _ _ _ (by simp only [set_node_len, push_node_len]; omega) 0,
      if_neg (by omega),
      getNode_set_node_lt _ _ _ (by simp only [set_node_len, push_node_len]; omega) 0,
      if_neg (by omega), getNode_push_node]
    simp only [set_node_len, push_node_len]
    rw [if_pos (by omega),
      getNode_set_node_lt _ _ _ (by simp only [set_node_len, push_node_len]; omega) 0,
      if_neg (by omega),
      getNode_set_node_lt _ _ _ (by simp only [set_node_len, push_node_len]; omega) 0,
      if_neg (by omega), getNode_push_node]
    simp only [set_node_len]
    rw [if_pos (by omega), getNode_set_node_lt _ _ _ hL0 0, if_pos rfl]
  have hadd2 := add_child_valid
    ({ node_id := (c1 : Int), start_idx := (getNode st ae).start_idx,
       end_idx := (getNode st ae).start_idx + st.active_length - 1, is_terminal := false,
       children := List.replicate 91 none, suffix_link := none } : TrieNode)
    (by simp) c3v hc3a hc3b ae
  have hadd3 := add_child_valid
    ({ node_id := (c1 : Int), start_idx := (getNode st ae).start_idx,
       end_idx := (getNode st ae).start_idx + st.active_length - 1, is_terminal := false,
       children := (List.replicate 91 none).set (c3v - 36) (some ae),
       suffix_link := none } : TrieNode)
    (by simp) c1 hc1a hc1b (st.arena.length + 1)
  cases li with
  | none =>
    unfold split_edge advance_active
    simp only [hInv.active_root, hadd1, set_node_input, push_node_input, set_node_alen,
      push_node_alen, set_node_gend, push_node_gend, set_node_active, push_node_active,
      set_node_len, push_node_len, g2, gae2, gL2, hc3]
    simp only [hadd2]
    simp only [gL4]
    simp only [hadd3]
    simp only [g0a, hInv.root_link]
    have hcore := split_core_inv st j i ae cq c1 c3v
      { node_id := (getNode st 0).node_id, start_idx := (getNode st 0).start_idx,
        end_idx := (getNode st 0).end_idx, is_terminal := (getNode st 0).is_terminal,
        children := (getNode st 0).children.set (cq - 36) (some st.arena.length),
        suffix_link := some 0 }
      _ _ _ _ _ hInv hT hji2 hi hge halen hcq36 hcq126 hae hc1 hc3
      (by simp only [hInv.root_link]) rfl rfl rfl rfl rfl
    have hb := buildInv_set_link _ (j + 1) st.arena.length (some 0) hcore (by omega)
    refine ⟨?_, ⟨by omega, by simp only [set_node_len, push_node_len]; omega⟩, by trivial,
      by trivial, by trivial, by simp only [set_node_len, push_node_len]; omega⟩
    refine buildInv_congr ?_ ?_ ?_ ?_ hb
    · exact rfl
    · exact rfl
    · exact rfl
    · simp only [set_node_active, push_node_active]
      exact hInv.active_root.symm
  | some l =>
    obtain ⟨hl0, hlL⟩ : l ≠ 0 ∧ l < st.arena.length := hli
    have g0b : ∀ X Y Z W V U1 U2 U3 : TrieNode,
        getNode (set_node (set_node (set_node (push_node (set_node (set_node (push_node
          (set_node st 0 X) Y) ae Z) st.arena.length W) V) st.arena.length U1)
          st.arena.length U2) l U3) 0 = X := by
      intro X Y Z W V U1 U2 U3
      rw [getNode_set_node_lt _ _ _ (by simp only [set_node_len, push_node_len]; omega) 0,
        if_neg (by omega)]
      exact g0a X Y Z W V U1 U2
    unfold split_edge advance_active
    simp only [hInv.active_root, hadd1, set_node_input, push_node_input, set_node_alen,
      push_node_alen, set_node_gend, push_node_gend, set_node_active, push_node_active,
      set_node_len, push_node_len, g2, gae2, gL2, hc3]
    simp only [hadd2]
    simp only [gL4]
    simp only [hadd3]
    simp only [g0b, hInv.root_link]
    have hcore := split_core_inv st j i ae cq c1 c3v
      { node_id := (getNode st 0).node_id, start_idx := (getNode st 0).start_idx,
        end_idx := (getNode st 0).end_idx, is_terminal := (getNode st 0).is_terminal,
        children := (getNode st 0).children.set (cq - 36) (some st.arena.length),
        suffix_link := some 0 }
      _ _ _ _ _ hInv hT hji2 hi hge halen hcq36 hcq126 hae hc1 hc3
      (by simp only [hInv.root_link]) rfl rfl rfl rfl rfl
    have hb1 := buildInv_set_link _ (j + 1) st.arena.length (some 0) hcore (by omega)
    have hb2 := buildInv_set_link _ (j + 1) l (some st.arena.length) hb1 hl0
    refine ⟨?_, ⟨by omega, by simp only [set_node_len, push_node_len]; omega⟩, by trivial,
      by trivial, by trivial, by simp only [set_node_len, push_node_len]; omega⟩
    refine buildInv_congr ?_ ?_ ?_ ?_ hb2
    · exact rfl
    · exact rfl
    · exact rfl
    · simp only [set_node_active, push_node_active]
      exact hInv.active_root.symm

/-- Invariant preservation for Rule 2.1 (source lines 75-79): when the slot
for the next character is empty, a fresh terminal leaf is pushed and hung
off the root at that slot.  `PP` is the updated root record, `LF` the new
leaf.  The active length has been reset to `i - j`. -/
theorem rule21_inv (st : Builder) (j i : Nat) (ch : Nat) (PP LF : TrieNode)
    (hInv : BuildInv st j)
    (hji : j < i) (hi : i ≤ st.input_str.length)
    (hge : st.global_end = (i : Int)) (halen : st.active_length = (i : Int) - (j : Int))
    (hch36 : 36 ≤ ch) (hch126 : ch ≤ 126)
    (hch : pyGetList st.input_str 0 ((i : Int) - st.active_length) = Except.ok ch)
    (hPP : PP = { getNode st 0 with children := (getNode st 0).children.set (ch - 36) (some st.arena.length) })
    (hLF : LF = { node_id := (j : Int), start_idx := (i : Int) - st.active_length, end_idx := st.global_end, is_terminal := true, children := List.replicate 91 none, suffix_link := none }) :
    BuildInv (push_node (set_node st 0 PP) LF) (j + 1) := by
  have hL0 : 0 < st.arena.length := List.length_pos.mpr hInv.ne
  have hclen0 : (getNode st 0).children.length = 91 := hInv.clen _ (root_mem st hInv.ne)
  have hkc : ch - 36 < 91 := by omega
  have hPPch : ∀ k, PP.children.getD k none =
      if k = ch - 36 then some st.arena.length else (getNode st 0).children.getD k none := by
    intro k
    rw [hPP]
    exact getD_set_table _ _ _ _ (by rw [hclen0]; omega)
  have hPPt : PP.is_terminal = false := by rw [hPP]; exact hInv.root_not_terminal
  have hPPl : PP.suffix_link = some 0 := by rw [hPP]; exact hInv.root_link
  have hPPcl : PP.children.length = 91 := by rw [hPP]; simpa using hclen0
  have hLFch : ∀ k, LF.children.getD k none = none := by
    intro k
    rw [hLF]
    exact getD_replicate_none _ _
  have hLFt : LF.is_terminal = true := by rw [hLF]
  have hLFid : LF.node_id = (j : Int) := by rw [hLF]
  have hLFs : LF.start_idx = (i : Int) - st.active_length := by rw [hLF]
  have hLFcl : LF.children.length = 91 := by rw [hLF]; simp
  have hnode : ∀ h : Nat, getNode (push_node (set_node st 0 PP) LF) h =
      if h = 0 then PP else if h = st.arena.length then LF else getNode st h := by
    intro h
    split_ifs with hh0 hhL
    · subst hh0
      rw [getNode_push_node]
      simp only [set_node_len]
      rw [if_pos (by omega), getNode_set_node_lt _ _ _ hL0 0, if_pos rfl]
    · subst hhL
      rw [getNode_push_node]
      simp only [set_node_len]
      rw [if_neg (by omega)]
      exact if_pos trivial
    · by_cases hlt : h < st.arena.length
      · rw [getNode_push_node]
        simp only [set_node_len]
        rw [if_pos (by omega), getNode_set_node_lt _ _ _ hL0 h, if_neg (by omega)]
      · rw [getNode_push_node]
        simp only [set_node_len]
        rw [if_neg (by omega), if_neg hhL, getNode_default st h (by omega)]
  have hSlen : (push_node (set_node st 0 PP) LF).arena.length = st.arena.length + 1 := by
    simp
  have hocc : ∀ p k h', p < st.arena.length + 1 → k < 91 →
      (getNode (push_node (set_node st 0 PP) LF) p).children.getD k none = some h' →
      (p = 0 ∧ k = ch - 36 ∧ h' = st.arena.length) ∨
      (p < st.arena.length ∧ ¬(p = 0 ∧ k = ch - 36) ∧
        (getNode st p).children.getD k none = some h' ∧ h' ≠ 0 ∧ h' < st.arena.length) := by
    intro p k h' hp hk hv
    rw [hnode p] at hv
    split_ifs at hv with hp0 hpL
    · subst hp0
      rw [hPPch k] at hv
      by_cases hkq : k = ch - 36
      · rw [if_pos hkq] at hv
        exact Or.inl ⟨rfl, hkq, (Option.some_inj.mp hv).symm⟩
      · rw [if_neg hkq] at hv
        have old := hInv.child_ok _ (root_mem st hInv.ne) k hk
        rw [hv] at old
        exact Or.inr ⟨hL0, fun e => hkq e.2, hv, old.1, old.2.1⟩
    · rw [hLFch k] at hv
      cases hv
    · have hpltL : p < st.arena.length := by omega
      have old := hInv.child_ok _ (getNode_mem st p hpltL) k hk
      rw [hv] at old
      exact Or.inr ⟨hpltL, fun e => hp0 e.1, hv, old.1, old.2.1⟩
  refine ⟨⟨?_, ?_, ?_, ?_, ?_, ?_, ?_⟩, hInv.err_none, hInv.active_root, ?_⟩
  · intro hnil
    rw [hnil] at hSlen
    simp at hSlen
  · rw [hnode 0, if_pos rfl]
    exact hPPt
  · rw [hnode 0, if_pos rfl]
    exact hPPl
  · intro nd hnd
    obtain ⟨p, hp, rfl⟩ := mem_arena_getNode _ _ hnd
    rw [hSlen] at hp
    rw [hnode p]
    split_ifs with hp0 hpL
    · exact hPPcl
    · exact hLFcl
    · exact hInv.clen _ (getNode_mem st p (by omega))
  · intro nd hnd k hk
    obtain ⟨p, hp, rfl⟩ := mem_arena_getNode _ _ hnd
    rw [hSlen] at hp
    rcases hv : (getNode (push_node (set_node st 0 PP) LF) p).children.getD k none with _ | h'
    · trivial
    · rcases hocc p k h' hp hk hv with ⟨e1, e2, e3⟩ | ⟨e1, e2, e3, e4, e5⟩
      · subst e3
        refine ⟨by omega, by rw [hSlen]; omega, ?_⟩
        rw [hnode st.arena.length, if_neg (by omega), if_pos rfl, hLFs, e2]
        show slot_matches st.input_str ((i : Int) - st.active_length) (ch - 36)
        unfold slot_matches
        rw [hch]
        exact pyIdx_valid ch hch36 hch126
      · have old := hInv.child_ok _ (getNode_mem st p e1) k hk
        rw [e3] at old
        refine ⟨e4, by rw [hSlen]; omega, ?_⟩
        rw [hnode h', if_neg e4, if_neg (by omega)]
        exact old.2.2
  · intro nd hnd ht
    obtain ⟨p, hp, rfl⟩ := mem_arena_getNode _ _ hnd
    rw [hSlen] at hp
    rw [hnode p] at ht ⊢
    split_ifs at ht ⊢ with hp0 hpL
    · rw [hPPt] at ht
      cases ht
    · rw [hLFid]
      constructor
      · omega
      · show (j : Int) < ((push_node (set_node st 0 PP) LF).input_str.length : Int)
        show (j : Int) < (st.input_str.length : Int)
        omega
    · have := hInv.term_id _ (getNode_mem st p (by omega)) ht
      exact ⟨this.1, by have := this.2; simpa using this⟩
  · intro p1 hp1 p2 hp2 k1 hk1 k2 hk2
    unfold distinct_slots
    intro hne hequal
    rw [hSlen] at hp1 hp2
    rcases hv1 : (getNode (push_node (set_node st 0 PP) LF) p1).children.getD k1 none
      with _ | h'
    · exact absurd hv1 hne
    · have hv2 : (getNode (push_node (set_node st 0 PP) LF) p2).children.getD k2 none =
          some h' := by
        rw [← hequal, hv1]
      rcases hocc p1 k1 h' hp1 hk1 hv1 with ⟨e1, e2, e3⟩ | ⟨e1, e2, e3, e4, e5⟩ <;>
        rcases hocc p2 k2 h' hp2 hk2 hv2 with ⟨f1, f2, f3⟩ | ⟨f1, f2, f3, f4, f5⟩
      · exact ⟨by omega, by omega⟩
      · omega
      · omega
      · have := hInv.unique_parent p1 e1 p2 f1 k1 hk1 k2 hk2
        unfold distinct_slots at this
        exact this (by rw [e3]; simp) (by rw [e3, f3])
  · intro k hk
    rw [hnode 0, if_pos rfl, hPPch k]
    by_cases hkq : k = ch - 36
    · rw [if_pos hkq]
      refine ⟨⟨?_, ?_⟩, ?_⟩
      · rw [hnode st.arena.length, if_neg (by omega), if_pos rfl, hLFs]
        omega
      · rw [hnode st.arena.length, if_neg (by omega), if_pos rfl, hLFs]
        omega
      · intro hterm
        rw [hnode st.arena.length, if_neg (by omega), if_pos rfl, hLFt] at hterm
        cases hterm
    · rw [if_neg hkq]
      rcases hov : (getNode st 0).children.getD k none with _ | h'
      · trivial
      · have old := hInv.root_child k hk
        rw [hov] at old
        have hchd := hInv.child_ok _ (root_mem st hInv.ne) k hk
        rw [hov] at hchd
        obtain ⟨o1, o2, _⟩ := hchd
        refine ⟨⟨?_, ?_⟩, ?_⟩
        · rw [hnode h', if_neg o1, if_neg (by omega)]
          exact old.1.1
        · rw [hnode h', if_neg o1, if_neg (by omega)]
          have := old.1.2
          omega
        · intro hterm
          rw [hnode h', if_neg o1, if_neg (by omega)] at hterm ⊢
          exact old.2 hterm

/-- One extension preserves the construction invariant.  Starting from a
state satisfying `BuildInv` at `j` with the phase counter at `i`
(`global_end = i`, `j < i ≤ |input|`), `ext_once` either performs the
extension (flag `true`), giving a state satisfying `BuildInv` at `j + 1`
with the text and the end marker unchanged, or stops (Rule 3's `break`,
flag `false`), leaving the state unchanged apart from the active-length
reset of source line 67.  In particular no exception is raised. -/
theorem ext_once_ok (st : Builder) (i j : Nat) (li : Option Nat)
    (hInv : BuildInv st j) (hT : TextOk st)
    (hji : j < i) (hi : i ≤ st.input_str.length)
    (hge : st.global_end = (i : Int)) (hli : LiOk st li) :
    ((ext_once st i j li).2.2 = true →
      BuildInv (ext_once st i j li).1 (j + 1) ∧
      LiOk (ext_once st i j li).1 (ext_once st i j li).2.1 ∧
      (ext_once st i j li).1.input_str = st.input_str ∧
      (ext_once st i j li).1.global_end = st.global_end) ∧
    ((ext_once st i j li).2.2 = false →
      (ext_once st i j li).1 = { st with active_length := (i : Int) - (j : Int) }) := by
  have hL0 : 0 < st.arena.length := List.length_pos.mpr hInv.ne
  have hclen0 : (getNode st 0).children.length = 91 := hInv.clen _ (root_mem st hInv.ne)
  have hInvR : BuildInv { st with active_length := (i : Int) - (j : Int), active_node := 0 }
      j := by
    refine buildInv_congr ?_ ?_ ?_ ?_ hInv
    · exact rfl
    · exact rfl
    · exact rfl
    · exact hInv.active_root.symm
  have hTR : TextOk { st with active_length := (i : Int) - (j : Int), active_node := 0 } :=
    hT
  have hgA : ∀ x : Nat,
      getNode { st with active_length := (i : Int) - (j : Int), active_node := 0 } x =
        getNode st x :=
    fun _ => rfl
  obtain ⟨tr, htr⟩ := traverse_ok
    { st with active_length := (i : Int) - (j : Int), active_node := 0 }
    hInvR hTR i hge hi (((i : Int) - (j : Int)).toNat + 3) ((i : Int) - (j : Int)) 0
    (by omega) (by omega) (by omega)
  obtain ⟨ch, hch⟩ :
      ∃ c, pyGetList st.input_str 0 ((i : Int) - ((i : Int) - (j : Int))) = Except.ok c :=
    ⟨_, pyGetList_ok st.input_str 0 _ (by omega) (by omega)⟩
  obtain ⟨hch36, hch126⟩ := textOk_read st hT _ _ hch
  have hchild := get_child_at_valid (getNode st 0) hclen0 ch hch36 hch126
  unfold ext_once advance_active
  rw [if_pos hInv.active_root]
  simp only [hgA, hInv.active_root, htr, hch, hchild]
  rcases hslot : (getNode st 0).children.getD (ch - 36) none with _ | ae
  · -- Rule 2.1: empty slot, hang a fresh leaf off the root
    have hadd1 := add_child_valid (getNode st 0) hclen0 ch hch36 hch126 st.arena.length
    have g1 : ∀ X Y : TrieNode,
        getNode (push_node (set_node
          { st with active_length := (i : Int) - (j : Int), active_node := 0 } 0 X) Y) 0 =
          X := by
      intro X Y
      rw [getNode_push_node]
      simp only [set_node_len]
      rw [if_pos hL0,
        getNode_set_node_lt
          { st with active_length := (i : Int) - (j : Int), active_node := 0 } 0 X hL0 0,
        if_pos rfl]
    simp only [hslot, hadd1, set_node_active, push_node_active, g1, hInv.root_link]
    have hb := rule21_inv
      { st with active_length := (i : Int) - (j : Int), active_node := 0 } j i ch
      { node_id := (getNode st 0).node_id, start_idx := (getNode st 0).start_idx,
        end_idx := (getNode st 0).end_idx, is_terminal := (getNode st 0).is_terminal,
        children := (getNode st 0).children.set (ch - 36) (some st.arena.length),
        suffix_link := some 0 }
      { node_id := (j : Int), start_idx := (i : Int) - ((i : Int) - (j : Int)),
        end_idx := st.global_end, is_terminal := true,
        children := List.replicate 91 none, suffix_link := none }
      hInvR hji hi hge rfl hch36 hch126 hch (by simp only [hgA, hInv.root_link]) rfl
    refine ⟨fun _ => ⟨?_, ?_, rfl, rfl⟩, fun hfalse => Bool.noConfusion hfalse⟩
    · refine buildInv_congr ?_ ?_ ?_ ?_ hb
      · exact rfl
      · exact rfl
      · exact rfl
      · exact rfl
    · cases li with
      | none => trivial
      | some l =>
        obtain ⟨hl0, hlL⟩ := hli
        refine ⟨hl0, ?_⟩
        simp only [push_node_len, set_node_len]
        omega
  · -- a child exists: compare the phase symbol with the edge symbol
    have hco := hInv.child_ok _ (root_mem st hInv.ne) (ch - 36) (by omega)
    rw [hslot] at hco
    obtain ⟨hae0, haeL, haesm⟩ := hco
    have hrc := hInv.root_child (ch - 36) (by omega)
    rw [hslot] at hrc
    obtain ⟨⟨hs0, hsj⟩, hintl⟩ := hrc
    obtain ⟨c1, hc1⟩ : ∃ c, pyGetList st.input_str 0 ((i : Int) - 1) = Except.ok c :=
      ⟨_, pyGetList_ok st.input_str 0 _ (by omega) (by omega)⟩
    obtain ⟨hc1a, hc1b⟩ := textOk_read st hT _ _ hc1
    obtain ⟨c2, hc2⟩ : ∃ c, pyGetList st.input_str 0
        ((getNode st ae).start_idx + ((i : Int) - (j : Int)) - 1) = Except.ok c :=
      ⟨_, pyGetList_ok st.input_str 0 _ (by omega) (by omega)⟩
    obtain ⟨hc2a, hc2b⟩ := textOk_read st hT _ _ hc2
    simp only [hc1, hc2]
    by_cases hc12 : c1 = c2
    · -- Rule 3: symbols agree, break
      rw [if_neg (not_not_intro hc12)]
      exact ⟨fun htrue => Bool.noConfusion htrue, fun _ => rfl⟩
    · -- Rule 2.2: symbols differ, split the edge
      have hji2 : j + 2 ≤ i := by
        by_contra hlt
        apply hc12
        have e1 : (i : Int) - 1 = (i : Int) - ((i : Int) - (j : Int)) := by omega
        rw [e1, hch] at hc1
        have h11 : ch = c1 := by injection hc1
        have e2 : (getNode st ae).start_idx + ((i : Int) - (j : Int)) - 1 =
            (getNode st ae).start_idx := by omega
        rw [e2] at hc2
        unfold slot_matches at haesm
        simp only [hc2] at haesm
        rw [pyIdx_valid c2 hc2a hc2b] at haesm
        have h22 : c2 - 36 = ch - 36 := Option.some_inj.mp haesm
        omega
      rw [if_pos hc12]
      have hsp := split_edge_ok
        { st with active_length := (i : Int) - (j : Int), active_node := 0 } i j li
        ae ch c1 hInvR hTR hji2 hi hge rfl hli hch36 hch126 hslot hc1
      obtain ⟨hb1, hb2, hb3, hb4, hb5, _⟩ := hsp
      refine ⟨fun _ => ⟨hb1, hb2, hb4, hb5⟩, fun hfalse => ?_⟩
      rw [hb3] at hfalse
      exact Bool.noConfusion hfalse

/-- The extension loop preserves the construction invariant: starting at
extension `j` with the phase counter at `i`, it stops at some `j' ∈ [j, i]`
with the invariant holding at `j'` and the text and end marker unchanged. -/
theorem ext_loop_fuel_ok : ∀ (fuel : Nat) (st : Builder) (i j : Nat) (li : Option Nat),
    BuildInv st j → TextOk st → j ≤ i → i ≤ st.input_str.length →
    st.global_end = (i : Int) → LiOk st li →
    BuildInv (ext_loop_fuel fuel st i j li).1 (ext_loop_fuel fuel st i j li).2 ∧
    (ext_loop_fuel fuel st i j li).1.input_str = st.input_str ∧
    (ext_loop_fuel fuel st i j li).1.global_end = st.global_end ∧
    j ≤ (ext_loop_fuel fuel st i j li).2 ∧ (ext_loop_fuel fuel st i j li).2 ≤ i := by
  intro fuel
  induction fuel with
  | zero =>
    intro st i j li hInv hT hji hi hge hli
    exact ⟨hInv, rfl, rfl, Nat.le_refl j, hji⟩
  | succ fuel IH =>
    intro st i j li hInv hT hji hi hge hli
    by_cases hjlt : j < i
    · have hstep := ext_once_ok st i j li hInv hT hjlt hi hge hli
      simp only [ext_loop_fuel]
      rw [if_pos hjlt]
      cases hflag : (ext_once st i j li).2.2 with
      | true =>
        rw [if_pos rfl]
        obtain ⟨hI1, hL1, hS1, hG1⟩ := hstep.1 hflag
        obtain ⟨A1, A2, A3, A4, A5⟩ := IH (ext_once st i j li).1 i (j + 1)
          (ext_once st i j li).2.1 hI1 (by unfold TextOk; rw [hS1]; exact hT) hjlt
          (by rw [hS1]; exact hi) (by rw [hG1]; exact hge) hL1
        exact ⟨A1, by rw [A2, hS1], by rw [A3, hG1], by omega, A5⟩
      | false =>
        rw [if_neg Bool.false_ne_true]
        have heq := hstep.2 hflag
        refine ⟨?_, ?_, ?_, Nat.le_refl j, Nat.le_of_lt hjlt⟩
        · show BuildInv (ext_once st i j li).1 j
          rw [heq]
          refine buildInv_congr ?_ ?_ ?_ ?_ hInv <;> rfl
        · show (ext_once st i j li).1.input_str = st.input_str
          rw [heq]
        · show (ext_once st i j li).1.global_end = st.global_end
          rw [heq]
    · simp only [ext_loop_fuel]
      rw [if_neg hjlt]
      exact ⟨hInv, rfl, rfl, Nat.le_refl j, hji⟩

/-- One phase of the construction preserves the invariant: with no pending
exception the end marker is incremented to `i` (Rule 1) and the extension
loop runs, stopping at some `j' ∈ [j, i]` with the invariant at `j'`, the
text unchanged, and the end marker at `i`. -/
theorem run_phase_ok (st : Builder) (i j : Nat)
    (hInv : BuildInv st j) (hT : TextOk st) (hji : j ≤ i)
    (hge : st.global_end + 1 = (i : Int)) (hi : i ≤ st.input_str.length) :
    BuildInv (run_phase st i j).1 (run_phase st i j).2 ∧
    (run_phase st i j).1.input_str = st.input_str ∧
    (run_phase st i j).1.global_end = (i : Int) ∧
    j ≤ (run_phase st i j).2 ∧ (run_phase st i j).2 ≤ i := by
  have hc : ¬(st.err.isSome = true) := by
    rw [hInv.err_none]
    exact Bool.false_ne_true
  have hInvG : BuildInv { st with global_end := st.global_end + 1 } j := by
    refine buildInv_congr ?_ ?_ ?_ ?_ hInv <;> rfl
  have hTG : TextOk { st with global_end := st.global_end + 1 } := hT
  obtain ⟨A1, A2, A3, A4, A5⟩ := ext_loop_fuel_ok (i - j)
    { st with global_end := st.global_end + 1 } i j none hInvG hTG hji hi hge trivial
  unfold run_phase ext_loop
  rw [if_neg hc]
  exact ⟨A1, A2, by rw [A3]; exact hge, A4, A5⟩

/-- The phase loop preserves the construction invariant: across the `n`
remaining phases the text never changes and the end marker, entering at
`i - 1`, leaves at `i + n - 1`. -/
theorem build_loop_ok : ∀ (n : Nat) (st : Builder) (j i : Nat),
    BuildInv st j → TextOk st → j ≤ i →
    st.global_end + 1 = (i : Int) → i + n ≤ st.input_str.length + 1 →
    BuildInv (build_loop st j i n).1 (build_loop st j i n).2 ∧
    (build_loop st j i n).1.input_str = st.input_str ∧
    (build_loop st j i n).1.global_end + 1 = (i : Int) + (n : Int) := by
  intro n
  induction n with
  | zero =>
    intro st j i hInv hT hji hge hn
    refine ⟨hInv, rfl, ?_⟩
    show st.global_end + 1 = (i : Int) + ((0 : Nat) : Int)
    omega
  | succ n IH =>
    intro st j i hInv hT hji hge hn
    obtain ⟨A1, A2, A3, A4, A5⟩ := run_phase_ok st i j hInv hT hji hge (by omega)
    simp only [build_loop]
    obtain ⟨B1, B2, B3⟩ := IH (run_phase st i j).1 (run_phase st i j).2 (i + 1) A1
      (by unfold TextOk; rw [A2]; exact hT) (by omega) (by rw [A3]; push_cast; omega)
      (by rw [A2]; omega)
    refine ⟨B1, by rw [B2, A2], ?_⟩
    rw [B3]
    push_cast
    omega

/-- `__init__` (source lines 43-54) establishes the construction invariant
at `j = 0`: the arena holds exactly the root, internal, linked to itself,
with 91 empty child slots, and no exception is pending. -/
theorem init_inv (text : List Nat) : BuildInv (Builder.init text) 0 := by
  have harena : (Builder.init text).arena =
      [{ node_id := -1, start_idx := 0, end_idx := 0, is_terminal := false,
         children := List.replicate 91 none, suffix_link := some 0 }] := rfl
  have hmem : ∀ nd ∈ (Builder.init text).arena,
      nd = { node_id := -1, start_idx := 0, end_idx := 0, is_terminal := false,
             children := List.replicate 91 none, suffix_link := some 0 } := by
    intro nd hnd
    rw [harena] at hnd
    exact List.mem_singleton.mp hnd
  refine ⟨⟨?_, rfl, rfl, ?_, ?_, ?_, ?_⟩, rfl, rfl, ?_⟩
  · rw [harena]
    exact List.cons_ne_nil _ _
  · intro nd hnd
    rw [hmem nd hnd]
    simp
  · intro nd hnd k hk
    rw [hmem nd hnd]
    show child_slot_ok _ k ((List.replicate 91 (none : Option Nat)).getD k none)
    rw [getD_replicate_none]
    trivial
  · intro nd hnd ht
    rw [hmem nd hnd] at ht
    cases ht
  · intro p1 hp1 p2 hp2 k1 hk1 k2 hk2
    unfold distinct_slots
    intro hne _
    exfalso
    apply hne
    have : getNode (Builder.init text) p1 ∈ (Builder.init text).arena := by
      apply getNode_mem
      exact hp1
    rw [hmem _ this]
    show (List.replicate 91 (none : Option Nat)).getD k1 none = none
    exact getD_replicate_none _ _
  · intro k hk
    show root_child_ok _ 0 ((getNode (Builder.init text) 0).children.getD k none)
    have : getNode (Builder.init text) 0 ∈ (Builder.init text).arena := by
      apply getNode_mem
      rw [harena]
      simp
    rw [hmem _ this]
    show root_child_ok _ 0 ((List.replicate 91 (none : Option Nat)).getD k none)
    rw [getD_replicate_none]
    trivial

/-- The text stored by `__init__` is valid whenever the caller's text is:
the appended terminator `$` (code 36) is itself in the supported range. -/
theorem init_textOk (text : List Nat) (hV : ValidText text) :
    TextOk (Builder.init text) := by
  intro c hc
  show 36 ≤ c ∧ c ≤ 126
  rcases List.mem_append.mp hc with h | h
  · exact hV c h
  · rw [List.mem_singleton.mp h]
    omega

/-- The full construction on a valid text preserves the invariant to the
end and leaves the shared end marker at `|text| + 1`, the length of the
terminated string (one past its last valid index).  In particular no
exception is ever raised. -/
theorem build_ok (text : List Nat) (hV : ValidText text) :
    BuildInv (build_suffix_tree text)
      (build_loop (Builder.init text) 0 0 ((Builder.init text).input_str.length + 1)).2 ∧
    (build_suffix_tree text).input_str = text ++ [36] ∧
    (build_suffix_tree text).global_end = ((text.length + 1 : Nat) : Int) := by
  have hlen : (Builder.init text).input_str.length = text.length + 1 := by
    show (text ++ [36]).length = text.length + 1
    simp
  obtain ⟨B1, B2, B3⟩ := build_loop_ok ((Builder.init text).input_str.length + 1)
    (Builder.init text) 0 0 (init_inv text) (init_textOk text hV) (Nat.le_refl 0)
    (by show (-1 : Int) + 1 = ((0 : Nat) : Int); decide) (by omega)
  refine ⟨B1, B2, ?_⟩
  show (build_loop (Builder.init text) 0 0 ((Builder.init text).input_str.length + 1)).1.global_end = _
  push_cast at B3 ⊢
  omega

/-- Any handle stored in the child table of a live node is itself live. -/
theorem children_mem_live (st : Builder) {j : Nat} (hInv : BuildInv st j)
    (nd : TrieNode) (hnd : nd ∈ st.arena) (h' : Nat) (hh' : some h' ∈ nd.children) :
    h' < st.arena.length := by
  obtain ⟨k, hkl, hgetk⟩ := List.getElem_of_mem hh'
  have hk91 : k < 91 := by
    have := hInv.clen _ hnd
    omega
  have hgd : nd.children.getD k none = some h' := by
    rw [getD_eq_getElem _ _ _ hkl]
    exact hgetk
  have hco := hInv.child_ok _ hnd k hk91
  rw [hgd] at hco
  exact hco.2.1

/-- Every id the collector gathers is the id of a live terminal node, so it
lies in `[0, |input|)` by the invariant's terminal-id condition. -/
theorem retrieve_list_bound (st : Builder) {j : Nat} (hInv : BuildInv st j) :
    ∀ fuel slots, (∀ h : Nat, some h ∈ slots → h < st.arena.length) →
      ∀ x ∈ retrieve_list st fuel slots, 0 ≤ x ∧ x < (st.input_str.length : Int) := by
  intro fuel
  induction fuel with
  | zero =>
    intro slots _ x hx
    simp only [retrieve_list] at hx
    exact absurd hx (List.not_mem_nil x)
  | succ fuel IH =>
    intro slots hs x hx
    cases slots with
    | nil =>
      simp only [retrieve_list] at hx
      exact absurd hx (List.not_mem_nil x)
    | cons o rest =>
      cases o with
      | none =>
        simp only [retrieve_list] at hx
        exact IH rest (fun h hh => hs h (List.mem_cons_of_mem _ hh)) x hx
      | some h =>
        simp only [retrieve_list] at hx
        have hhlt : h < st.arena.length := hs h (List.mem_cons_self _ _)
        have hmem := getNode_mem st h hhlt
        rcases List.mem_append.mp hx with hx1 | hx2
        · by_cases ht : (getNode st h).is_terminal = true
          · rw [if_pos ht] at hx1
            rw [List.mem_singleton.mp hx1]
            exact hInv.term_id _ hmem ht
          · rw [if_neg ht] at hx1
            exact IH (getNode st h).children
              (fun h' hh' => children_mem_live st hInv _ hmem h' hh') x hx1
        · exact IH rest (fun h' hh' => hs h' (List.mem_cons_of_mem _ hh')) x hx2

/-- For a valid text, every collected suffix id is in `[0, |text|]` (the
padded text has length `|text| + 1`). -/
theorem suffix_ids_bound (text : List Nat) (hV : ValidText text) :
    ∀ x ∈ suffix_ids text, 0 ≤ x ∧ x ≤ (text.length : Int) := by
  obtain ⟨B1, B2, B3⟩ := build_ok text hV
  have hilen : (build_suffix_tree text).input_str.length = text.length + 1 := by
    rw [B2]
    simp
  intro x hx
  unfold suffix_ids retrieve_suffix_ids at hx
  rw [if_neg (by rw [B1.root_not_terminal]; exact Bool.false_ne_true)] at hx
  have hb := retrieve_list_bound (build_suffix_tree text) B1
    ((((build_suffix_tree text).arena.length + 1) * 92))
    (getNode (build_suffix_tree text) 0).children
    (fun h' hh' =>
      children_mem_live (build_suffix_tree text) B1 _ (root_mem _ B1.ne) h' hh')
    x hx
  rw [hilen] at hb
  push_cast at hb ⊢
  omega

/-- A pair of `dict_set d k v` is a pair of `d` or has key `k`. -/
theorem dict_set_mem (d : List (Int × Nat)) (k : Int) (v : Nat) (p : Int × Nat)
    (hp : p ∈ dict_set d k v) : p ∈ d ∨ p.1 = k := by
  unfold dict_set at hp
  split_ifs at hp with hc
  · obtain ⟨q, hq, hpq⟩ := List.mem_map.mp hp
    by_cases hqk : q.1 = k
    · rw [if_pos hqk] at hpq
      right
      rw [← hpq]
    · rw [if_neg hqk] at hpq
      left
      rw [← hpq]
      exact hq
  · rcases List.mem_append.mp hp with h | h
    · exact Or.inl h
    · right
      rw [List.mem_singleton.mp h]

/-- A key predicate transfers from the id list into `suffix_dict`. -/
theorem suffix_dict_aux_bound (P : Int → Prop) (ids : List Int) :
    ∀ (l : List Nat) (d0 : List (Int × Nat)),
      (∀ p ∈ d0, P p.1) → (∀ i ∈ l, P (ids.getD i 0)) →
      ∀ p ∈ l.foldl (fun d i => dict_set d (ids.getD i 0) (i + 1)) d0, P p.1 := by
  intro l
  induction l with
  | nil =>
    intro d0 h0 _ p hp
    exact h0 p hp
  | cons a l IH =>
    intro d0 h0 hl p hp
    simp only [List.foldl_cons] at hp
    refine IH (dict_set d0 (ids.getD a 0) (a + 1)) ?_
      (fun i hi => hl i (List.mem_cons_of_mem _ hi)) p hp
    intro q hq
    rcases dict_set_mem _ _ _ _ hq with h | h
    · exact h0 q h
    · rw [h]
      exact hl a (List.mem_cons_self _ _)

/-- Every key of `suffix_dict ids` comes from `ids`. -/
theorem suffix_dict_key_bound (P : Int → Prop) (ids : List Int)
    (hids : ∀ x ∈ ids, P x) : ∀ p ∈ suffix_dict ids, P p.1 := by
  intro p hp
  unfold suffix_dict at hp
  refine suffix_dict_aux_bound P ids (List.range ids.length) []
    (by intro q hq; cases hq) ?_ p hp
  intro i hi
  exact hids _ (getD_mem _ _ _ (List.mem_range.mp hi))

/-- Insertion into a sorted association list adds no pair beyond the
inserted one. -/
theorem insert_by_key_mem (kv : Int × Nat) :
    ∀ (l : List (Int × Nat)) (p : Int × Nat), p ∈ insert_by_key kv l → p = kv ∨ p ∈ l := by
  intro l
  induction l with
  | nil =>
    intro p hp
    exact Or.inl (List.mem_singleton.mp hp)
  | cons x xs IH =>
    intro p hp
    unfold insert_by_key at hp
    split_ifs at hp with hc
    · rcases List.mem_cons.mp hp with h | h
      · exact Or.inl h
      · exact Or.inr h
    · rcases List.mem_cons.mp hp with h | h
      · right
        rw [h]
        exact List.mem_cons_self _ _
      · rcases IH p h with h' | h'
        · exact Or.inl h'
        · exact Or.inr (List.mem_cons_of_mem _ h')

/-- A key predicate transfers from `suffix_dict` into `sorted_dict`. -/
theorem sorted_dict_key_bound (P : Int → Prop) (ids : List Int)
    (hids : ∀ x ∈ ids, P x) : ∀ p ∈ sorted_dict ids, P p.1 := by
  have base := suffix_dict_key_bound P ids hids
  have aux : ∀ (l : List (Int × Nat)), (∀ p ∈ l, P p.1) →
      ∀ p ∈ l.foldr insert_by_key [], P p.1 := by
    intro l
    induction l with
    | nil =>
      intro _ p hp
      exact absurd hp (List.not_mem_nil p)
    | cons x xs IH =>
      intro hl p hp
      simp only [List.foldr_cons] at hp
      rcases insert_by_key_mem x _ p hp with h | h
      · rw [h]
        exact hl x (List.mem_cons_self _ _)
      · exact IH (fun q hq => hl q (List.mem_cons_of_mem _ hq)) p h
  intro p hp
  unfold sorted_dict at hp
  exact aux _ base p hp

/-- A key no pair carries is not found: Python's `d[k]` raises `KeyError`. -/
theorem dict_get_none_of (d : List (Int × Nat)) (k : Int)
    (h : ∀ p ∈ d, p.1 ≠ k) : dict_get d k = none := by
  unfold dict_get
  have hf : (d.find? (fun kv => kv.1 = k)) = none :=
    List.find?_eq_none.mpr (fun p hp => by simpa using h p hp)
  rw [hf]
  rfl

/-- The invariant's child-table part in the form claim C7 states it. -/
theorem buildInv_childTableOk (st : Builder) (j : Nat) (h : BuildInv st j) :
    ChildTableOk st :=
  ⟨h.ne, h.root_not_terminal, h.child_ok⟩

/-- C6 amended: the shared end marker starts at the sentinel `-1`; each
phase increments it by exactly one, before that phase's extensions run
(`run_phase` is the loop with the marker already advanced); across any
block of phases it strictly increases; and on a valid text the finished
marker holds `|text| + 1`, the length of the terminated string — one
MORE than the index of the last symbol processed, not that index
itself. -/
theorem c6_marker_discipline (text : List Nat) (st : Builder) (i j n : Nat)
    (hV : ValidText text) (hInv : BuildInv st j) (hT : TextOk st) (hji : j ≤ i)
    (hge : st.global_end + 1 = (i : Int)) (hn : i + (n + 1) ≤ st.input_str.length + 1) :
    (Builder.init text).global_end = -1 ∧
    run_phase st i j = ext_loop { st with global_end := st.global_end + 1 } i j none ∧
    st.global_end < (build_loop st j i (n + 1)).1.global_end ∧
    (build_suffix_tree text).global_end = ((text.length + 1 : Nat) : Int) := by
  refine ⟨rfl, ?_, ?_, (build_ok text hV).2.2⟩
  · unfold run_phase
    rw [if_neg (by rw [hInv.err_none]; exact Bool.false_ne_true)]
  · obtain ⟨B1, B2, B3⟩ := build_loop_ok (n + 1) st j i hInv hT hji hge hn
    push_cast at B3
    omega

/-- C6 amended witness: the discipline instantiated on `"banana"` from the
freshly initialised state: marker `-1`, first phase `i = 0`, all
`6 + 1 = 7` remaining phases ahead, final value `7 = |"banana"| + 1`. -/
theorem c6_marker_discipline_witness :
    (Builder.init banana).global_end = -1 ∧
    run_phase (Builder.init banana) 0 0 =
      ext_loop { Builder.init banana with
        global_end := (Builder.init banana).global_end + 1 } 0 0 none ∧
    (Builder.init banana).global_end < (build_loop (Builder.init banana) 0 0 (6 + 1)).1.global_end ∧
    (build_suffix_tree banana).global_end = ((banana.length + 1 : Nat) : Int) :=
  c6_marker_discipline banana (Builder.init banana) 0 0 6 (by decide) (init_inv banana)
    (init_textOk banana (by decide)) (by decide) (by decide) (by decide)

/-- C7: the child-table invariant — the root exists and is never a leaf,
and every stored child occupies exactly the slot its edge's first symbol
encodes to (so no node has two children whose edges' first symbols
coincide: a symbol determines one slot, and a slot holds one child) — is
established by `__init__`, holds before and after any performed extension,
and holds of the finished tree of any valid text. -/
theorem c7_child_tables (text : List Nat) (st : Builder) (i j : Nat) (li : Option Nat)
    (hV : ValidText text) (hInv : BuildInv st j) (hT : TextOk st) (hji : j < i)
    (hi : i ≤ st.input_str.length) (hge : st.global_end = (i : Int)) (hli : LiOk st li)
    (hflag : (ext_once st i j li).2.2 = true) :
    ChildTableOk (Builder.init text) ∧
    ChildTableOk st ∧
    ChildTableOk (ext_once st i j li).1 ∧
    ChildTableOk (build_suffix_tree text) :=
  ⟨buildInv_childTableOk _ 0 (init_inv text),
   buildInv_childTableOk _ j hInv,
   buildInv_childTableOk _ (j + 1)
     ((ext_once_ok st i j li hInv hT hji hi hge hli).1 hflag).1,
   buildInv_childTableOk _ _ (build_ok text hV).1⟩

/-- C7 witness: the invariant around the very first extension of
`"banana"` (phase `i = 1`, extension `j = 0`, a Rule 2.1 leaf). -/
theorem c7_child_tables_witness :
    ChildTableOk (Builder.init banana) ∧
    ChildTableOk { Builder.init banana with global_end := 1 } ∧
    ChildTableOk (ext_once { Builder.init banana with global_end := 1 } 1 0 none).1 ∧
    ChildTableOk (build_suffix_tree banana) :=
  c7_child_tables banana { Builder.init banana with global_end := 1 } 1 0 none
    (by decide) (by decide) (by decide) (by decide) (by decide) (by decide) (by decide)
    (by decide)

/-- C8: a query whose 0-based offset `q - 1` falls outside `[0, |text|]`
names no suffix start, so the lookup fails — `query_rank` finds no key
(Python's `KeyError`) and `main`'s loop surfaces the failure instead of
returning a rank.  The tree and the rank mapping are pure functions of the
text alone, so a failed query cannot alter them. -/
theorem c8_invalid_query_fails (text : List Nat) (q : Int) (hV : ValidText text)
    (hq : q - 1 < 0 ∨ (text.length : Int) < q - 1) :
    query_rank text q = none ∧ main_ranks text [q] = Except.error "KeyError" := by
  have hkeys : ∀ p ∈ sorted_dict (suffix_ids text), p.1 ≠ q - 1 := by
    intro p hp
    have hb := sorted_dict_key_bound (fun k => 0 ≤ k ∧ k ≤ (text.length : Int))
      (suffix_ids text) (suffix_ids_bound text hV) p hp
    omega
  have hqr : query_rank text q = none := by
    unfold query_rank
    exact dict_get_none_of _ _ hkeys
  refine ⟨hqr, ?_⟩
  unfold main_ranks
  simp only [List.foldl_cons, List.foldl_nil, hqr]

/-- C8 witness: querying position 9 of `"banana"` (offset 8, beyond the
last suffix start 6) fails with `KeyError`. -/
theorem c8_invalid_query_fails_witness :
    query_rank banana 9 = none ∧ main_ranks banana [9] = Except.error "KeyError" :=
  c8_invalid_query_fails banana 9 (by decide) (by decide)

/-- C9: construction is deterministic.  The embedding is a pure function
of the text — the source uses no randomness and no iteration over
hash-ordered containers (child tables are fixed 91-slot arrays, the rank
dict is keyed by integers in insertion order and then explicitly sorted) —
so two runs on the same text give the same tree, the same collected ids
and the same rank mapping. -/
theorem c9_build_deterministic (t1 t2 : List Nat) (h : t1 = t2) :
    build_suffix_tree t1 = build_suffix_tree t2 ∧
    suffix_ids t1 = suffix_ids t2 ∧
    sorted_dict (suffix_ids t1) = sorted_dict (suffix_ids t2) := by
  subst h
  exact ⟨rfl, rfl, rfl⟩

/-- C9 witness: two runs on `"banana"`. -/
theorem c9_build_deterministic_witness :
    build_suffix_tree banana = build_suffix_tree banana ∧
    suffix_ids banana = suffix_ids banana ∧
    sorted_dict (suffix_ids banana) = sorted_dict (suffix_ids banana) :=
  c9_build_deterministic banana banana rfl

/-- C10: the active node is always the root.  It starts there, the root's
suffix link is itself and the walk result is never assigned to it, so a
performed extension leaves it at the root, the finished tree's active node
is the root, and since it is the root at the top of every extension, the
`active_length = i - j` reset of source line 67 always fires (passing a
pre-reset state changes nothing). -/
theorem c10_active_node_always_root (text : List Nat) (st : Builder) (i j : Nat)
    (li : Option Nat) (hV : ValidText text) (hInv : BuildInv st j) (hT : TextOk st)
    (hji : j < i) (hi : i ≤ st.input_str.length) (hge : st.global_end = (i : Int))
    (hli : LiOk st li) (hflag : (ext_once st i j li).2.2 = true) :
    (Builder.init text).active_node = 0 ∧
    (getNode st 0).suffix_link = some 0 ∧
    st.active_node = 0 ∧
    (ext_once st i j li).1.active_node = 0 ∧
    ext_once st i j li = ext_once { st with active_length := (i : Int) - (j : Int) } i j li ∧
    (build_suffix_tree text).active_node = 0 := by
  refine ⟨rfl, hInv.root_link, hInv.active_root,
    ((ext_once_ok st i j li hInv hT hji hi hge hli).1 hflag).1.active_root, ?_,
    (build_ok text hV).1.active_root⟩
  show ext_once st i j li = ext_once { st with active_length := (i : Int) - (j : Int) } i j li
  unfold ext_once
  rw [if_pos hInv.active_root,
    if_pos (show ({ st with active_length := (i : Int) - (j : Int) } : Builder).active_node
      = 0 from hInv.active_root)]

/-- C10 witness: around the first extension of `"banana"`. -/
theorem c10_active_node_always_root_witness :
    (Builder.init banana).active_node = 0 ∧
    (getNode { Builder.init banana with global_end := 1 } 0).suffix_link = some 0 ∧
    ({ Builder.init banana with global_end := 1 } : Builder).active_node = 0 ∧
    (ext_once { Builder.init banana with global_end := 1 } 1 0 none).1.active_node = 0 ∧
    ext_once { Builder.init banana with global_end := 1 } 1 0 none =
      ext_once { { Builder.init banana with global_end := 1 } with
        active_length := (1 : Int) - (0 : Int) } 1 0 none ∧
    (build_suffix_tree banana).active_node = 0 :=
  c10_active_node_always_root banana { Builder.init banana with global_end := 1 } 1 0
    none (by decide) (by decide) (by decide) (by decide) (by decide) (by decide)
    (by decide) (by decide)

end Ukkonen
